import Mathlib

/-!
Verification development for the hourglass sand-simulation core
(`src/hourglass.rs` of the `hourgals` repository).

The Rust code is shallowly embedded as follows.

* `Grid<T>` is a flat row-major list together with its dimensions, exactly
  as in the source (`cells[(index.1 * self.width) + index.0]`).
* `u8` sand counts are natural numbers.  Every count appearing in the
  statements below stays far under 256, where `u8` and `Nat` arithmetic
  agree; the places where the source could leave `[0, 255]` are discussed
  at the corresponding claims.
* Rust panics (failed `assert!`s and `usize` arithmetic underflow, which
  aborts under the default overflow checks) are modelled by `Option`:
  `none` is a panic, `some` a normal return.  `csub` is the checked
  subtraction used at the two sites where an underflow is actually
  reachable; every other `usize` subtraction in the embedded code is
  provably in range on the domain where the function is invoked, as noted
  at each site, and is rendered with truncated `Nat` subtraction.
* The caller-supplied random generator is modelled by a function giving,
  for each visited cell `(x, y)`, the direction drawn for it during one
  `advance` tick.  The source draws exactly one `random_range(0..3)`
  value per visited cell, in a fixed traversal order, so one tick of
  randomness is exactly such a function; a list of such functions models
  the randomness of a sequence of ticks.
-/

/-- `LayoutCell` from the source: `Empty`, or `Wall` carrying a display glyph. -/
inductive LayoutCell where
  | empty : LayoutCell
  | wall : Char → LayoutCell
  deriving DecidableEq, Repr

/-- `MoveDirection` from the source. -/
inductive MoveDirection where
  | down : MoveDirection
  | right : MoveDirection
  | left : MoveDirection
  deriving DecidableEq, Repr

/-- `Grid<T>`: width, height and the flat row-major backing store. -/
structure Grid (α : Type) where
  width : Nat
  height : Nat
  cells : List α
  deriving DecidableEq, Repr

namespace Grid

/-- `Grid::is_in_bounds`: both coordinates within range. -/
def isInBounds (g : Grid α) (pos : Nat × Nat) : Bool :=
  decide (pos.1 < g.width) && decide (pos.2 < g.height)

/-- The flat index `(index.1 * self.width) + index.0` of the source's
`Index` implementation. -/
def flatIdx (g : Grid α) (pos : Nat × Nat) : Nat :=
  pos.2 * g.width + pos.1

/-- Indexed read.  The source `assert!`s `is_in_bounds`; the embedding is
total with a default, and every read performed by the embedded operations
on the domain of the proved statements is in bounds. -/
def get (g : Grid α) (d : α) (pos : Nat × Nat) : α :=
  g.cells.getD (g.flatIdx pos) d

/-- Indexed write (`List.set` is a no-op out of range; all writes
performed on the domain of the proved statements are in bounds). -/
def set (g : Grid α) (pos : Nat × Nat) (v : α) : Grid α :=
  { g with cells := g.cells.set (g.flatIdx pos) v }

/-- `Grid::new`.  The element creator is a constant function at both call
sites in the source (`|| LayoutCell::Empty` and `|| 0`), so the fresh grid
is a replicated list. -/
def new (w h : Nat) (v : α) : Grid α :=
  { width := w, height := h, cells := List.replicate (w * h) v }

/-- `Grid::flip`: reverses the entire backing sequence. -/
def flip (g : Grid α) : Grid α :=
  { g with cells := g.cells.reverse }

end Grid

/-- Checked `usize` subtraction: Rust's `a - b` on `usize` panics when
`b > a` (arithmetic overflow); `none` models that panic. -/
def csub (a b : Nat) : Option Nat :=
  if b ≤ a then some (a - b) else none

/-- `Hourglass::MAX_CELL_SAND`. -/
def MAX_CELL_SAND : Nat := 2

/-- The `'='` border writes of `populate_layout` (the "Equalses" loop), in
source order.  `height - 1` cannot underflow: the constructor guarantees
`height > width ≥ 1`. -/
def equalsWrites (w h : Nat) : List ((Nat × Nat) × Char) :=
  (List.range w).flatMap (fun i => [((i, 0), '='), ((i, h - 1), '=')])

/-- The `'|'` side-wall writes (the "Pipes" loop, `for i in
1..straight_length`), in source order.  For `1 ≤ i < straight_length ≤
height / 2` the indices `height - 1 - i` and `width - 1` cannot
underflow. -/
def pipeWrites (w h straight : Nat) : List ((Nat × Nat) × Char) :=
  (List.range' 1 (straight - 1)).flatMap (fun i =>
    [((0, i), '|'), ((w - 1, i), '|'),
     ((0, h - 1 - i), '|'), ((w - 1, h - 1 - i), '|')])

/-- The diagonal-taper writes (the "Slashes" loop, `for i in
0..slope_length`), in source order.  For `i < slope = width / 2` and
`straight = height / 2 - slope` (nonnegative because `height > width` and
`width` is odd), the subtractions `width - 1 - i`, `slope - 1 - i` and
`height - straight - slope + i` cannot underflow. -/
def slashWrites (w h slope straight : Nat) : List ((Nat × Nat) × Char) :=
  (List.range slope).flatMap (fun i =>
    [((i, straight + i), '\\'),
     ((w - 1 - i, straight + i), '/'),
     ((slope - 1 - i, h - straight - slope + i), '/'),
     ((slope + 1 + i, h - straight - slope + i), '\\')])

/-- All wall writes performed by `Hourglass::populate_layout`, in source
order.  The middle-pipes block (entered only for odd heights) computes
`width / 2 - 1` on `usize`; this is the only subtraction in
`populate_layout` that can underflow given the constructor's asserted
preconditions (it does so exactly when `width = 1`), and `csub` models the
resulting panic. -/
def layoutWrites (w h : Nat) : Option (List ((Nat × Nat) × Char)) :=
  let slope := w / 2
  let straight := h / 2 - slope
  let base := equalsWrites w h ++ pipeWrites w h straight ++ slashWrites w h slope straight
  if h % 2 = 1 then
    match csub (w / 2) 1 with
    | none => none
    | some a => some (base ++ [((a, h / 2), '|'), ((w / 2 + 1, h / 2), '|')])
  else
    some base

/-- Apply a list of wall writes to a layout grid, first write first. -/
def writeAll (ws : List ((Nat × Nat) × Char)) (g : Grid LayoutCell) : Grid LayoutCell :=
  ws.foldl (fun g e => g.set e.1 (LayoutCell.wall e.2)) g

/-- `Hourglass::populate_layout`. -/
def populate_layout (g : Grid LayoutCell) : Option (Grid LayoutCell) :=
  (layoutWrites g.width g.height).map (fun ws => writeAll ws g)

/-- `Hourglass`: layout grid, sand-count grid, pinch flag. -/
structure Hourglass where
  layout : Grid LayoutCell
  state : Grid Nat
  pinched : Bool
  deriving DecidableEq, Repr

namespace Hourglass

/-- `Hourglass::width`. -/
def width (hg : Hourglass) : Nat := hg.layout.width

/-- `Hourglass::height`. -/
def height (hg : Hourglass) : Nat := hg.layout.height

/-- `Hourglass::new`.  The two `assert!`s (odd width, height more than
width) and a panic inside `populate_layout` are the `none` cases. -/
def new (w h : Nat) : Option Hourglass :=
  if w % 2 ≠ 1 then none
  else if ¬ w < h then none
  else (populate_layout (Grid.new w h LayoutCell.empty)).map (fun lay =>
    { layout := lay, state := Grid.new w h 0, pinched := false })

/-- `Hourglass::pinch`. -/
def pinch (hg : Hourglass) : Hourglass := { hg with pinched := true }

/-- `Hourglass::unpinch`. -/
def unpinch (hg : Hourglass) : Hourglass := { hg with pinched := false }

/-- `Hourglass::is_solid_at`: out of bounds, a wall, or a saturated cell. -/
def is_solid_at (hg : Hourglass) (pos : Nat × Nat) : Bool :=
  if hg.layout.isInBounds pos = false then true
  else
    match hg.layout.get LayoutCell.empty pos with
    | LayoutCell.wall _ => true
    | LayoutCell.empty => decide (MAX_CELL_SAND ≤ hg.state.get 0 pos)

/-- `Hourglass::try_place_sand`, returning the `bool` result together with
the (possibly updated) hourglass. -/
def try_place_sand (hg : Hourglass) (pos : Nat × Nat) : Bool × Hourglass :=
  if hg.state.get 0 pos < MAX_CELL_SAND then
    (true, { hg with state := hg.state.set pos (hg.state.get 0 pos + 1) })
  else
    (false, hg)

/-- One row scan of `get_interior_positions`: the `interior_reached` flag
machine of the source, returning the pushed `x` coordinates in order.
Once the flag is set, an `Empty` cell is pushed and a non-`Empty` cell
ends the row (`break`); before the flag is set, a non-`Empty` cell sets
it. -/
def scanRow (lay : Grid LayoutCell) (y : Nat) : List Nat → Bool → List Nat
  | [], _ => []
  | x :: xs, reached =>
    let empty_here := decide (lay.get LayoutCell.empty (x, y) = LayoutCell.empty)
    if reached then
      if empty_here then x :: scanRow lay y xs true else []
    else
      scanRow lay y xs (!empty_here)

/-- `Hourglass::get_interior_positions`: rows top to bottom, the scanned
interior `x`s of each row paired with the row index. -/
def get_interior_positions (hg : Hourglass) : List (Nat × Nat) :=
  (List.range hg.height).flatMap (fun y =>
    (scanRow hg.layout y (List.range hg.width) false).map (fun x => (x, y)))

/-- The loop of `fill_with_sand_from_top`: walk the interior positions,
give each `min(grains_left, MAX_CELL_SAND)` grains (added on top of
whatever the cell already holds, as in the source's `+=`), and stop once
the remaining budget reaches zero. -/
def fillGo : Hourglass → List (Nat × Nat) → Nat → Hourglass
  | hg, [], _ => hg
  | hg, pos :: rest, grains_left =>
    let grains := min grains_left MAX_CELL_SAND
    let hg' := { hg with state := hg.state.set pos (hg.state.get 0 pos + grains) }
    if grains_left - grains = 0 then hg' else fillGo hg' rest (grains_left - grains)

/-- Rust's `usize as f32` cast: round to nearest at 24 significand bits,
ties to even.  Values up to `2 ^ 24` are represented exactly; a larger
value `n` is rounded to a multiple of its `f32` ulp
`2 ^ (Nat.log2 n - 23)`, with a tie going to the even multiple.  (No
overflow branch: `f32`'s finite range exceeds every `usize` value.) -/
def f32round (n : Nat) : Nat :=
  if n ≤ 2 ^ 24 then n
  else
    let e := Nat.log2 n - 23
    let q := n / 2 ^ e
    let r := n % 2 ^ e
    let half := 2 ^ (e - 1)
    if r < half then q * 2 ^ e
    else if half < r then (q + 1) * 2 ^ e
    else if q % 2 = 0 then q * 2 ^ e
    else (q + 1) * 2 ^ e

/-- The grain budget of `fill_with_sand_from_top`:
`(((positions.len() * MAX_CELL_SAND) as f32) * fullness) as usize`.
The `usize → f32` cast is `f32round`; the `f32` product with `fullness`
and the truncating `as usize` cast are modelled together as the floor of
the exact product (clamped at zero, as the saturating cast does), which
agrees with the `f32` computation at the fullness values `0` and `1`
appearing in the claims: multiplying by `0.0` or `1.0` is exact, and
`as usize` truncates the integral result. -/
def fillBudget (len : Nat) (fullness : ℚ) : Nat :=
  (⌊((f32round (len * MAX_CELL_SAND) : Nat) : ℚ) * fullness⌋).toNat

/-- `Hourglass::fill_with_sand_from_top`. -/
def fill_with_sand_from_top (hg : Hourglass) (fullness : ℚ) : Hourglass :=
  let positions := hg.get_interior_positions
  fillGo hg positions (fillBudget positions.length fullness)

/-- `Hourglass::count_sand` over the half-open coordinate ranges
`[x0, x1) × [y0, y1)` (the source takes `Range` arguments). -/
def count_sand (hg : Hourglass) (x0 x1 y0 y1 : Nat) : Nat :=
  ((List.range' y0 (y1 - y0)).map (fun y =>
    ((List.range' x0 (x1 - x0)).map (fun x => hg.state.get 0 (x, y))).sum)).sum

/-- `Hourglass::count_top_sand`. -/
def count_top_sand (hg : Hourglass) : Nat :=
  hg.count_sand 0 hg.width 0 (hg.height / 2)

/-- `Hourglass::count_bottom_sand`. -/
def count_bottom_sand (hg : Hourglass) : Nat :=
  hg.count_sand 0 hg.width (hg.height / 2) hg.height

/-- `Hourglass::can_flow`.  The source `assert!`s that `pos` is in bounds
of the state grid.  For `Left`, Rust's `&&` short-circuit means
`pos.0 - 1` is evaluated exactly when `solid_below` holds (after the
nonempty check), and that `usize` subtraction underflows when
`pos.0 = 0`; `csub` models the panic.  The other neighbour coordinates
only add, and `sand_here - 1` is guarded by `sand_here > 1`. -/
def can_flow (hg : Hourglass) (pos : Nat × Nat) (dir : MoveDirection) : Option Bool :=
  if hg.state.isInBounds pos = false then none
  else
    let solid_below := hg.is_solid_at (pos.1, pos.2 + 1)
    let sand_here := hg.state.get 0 pos
    if sand_here < 1 then some false
    else
      match dir with
      | MoveDirection.down =>
        some (decide (pos.2 < hg.height - 1) && !solid_below)
      | MoveDirection.right =>
        some (solid_below && !hg.is_solid_at (pos.1 + 1, pos.2) &&
          ((decide (1 < sand_here) && decide (hg.state.get 0 (pos.1 + 1, pos.2) < sand_here - 1)) ||
           (!hg.is_solid_at (pos.1 + 1, pos.2) && !hg.is_solid_at (pos.1 + 1, pos.2 + 1))))
      | MoveDirection.left =>
        if solid_below = false then some false
        else
          match csub pos.1 1 with
          | none => none
          | some xl =>
            some (!hg.is_solid_at (xl, pos.2) &&
              ((decide (1 < sand_here) && decide (hg.state.get 0 (xl, pos.2) < sand_here - 1)) ||
               (!hg.is_solid_at (xl, pos.2) && !hg.is_solid_at (xl, pos.2 + 1))))

/-- One cell visit of `Hourglass::advance`: the `assert!(state[here] <=
MAX_CELL_SAND)` (a `none` on failure), the direction draw, the pinched
skip of `Down` in row `height / 2 - 1` (that subtraction cannot underflow
on well-formed hourglasses, whose height is at least 2), the `can_flow`
test, and the grain movement.  In the movement, `state[here] - 1` cannot
underflow (`can_flow` returned `true`, so the cell holds a grain) and the
`Left` destination `x - 1` cannot underflow (`can_flow` returning `true`
for `Left` forces `x ≥ 1`). -/
def advanceCell (dirs : Nat → Nat → MoveDirection) (x y : Nat) (acc : Hourglass × Nat) :
    Option (Hourglass × Nat) :=
  let hg := acc.1
  if MAX_CELL_SAND < hg.state.get 0 (x, y) then none
  else
    let dir := dirs x y
    let skip_down := hg.pinched && decide (y = hg.height / 2 - 1)
    if skip_down && decide (dir = MoveDirection.down) then some acc
    else
      match can_flow hg (x, y) dir with
      | none => none
      | some false => some acc
      | some true =>
        let s1 := hg.state.set (x, y) (hg.state.get 0 (x, y) - 1)
        let dest : Nat × Nat :=
          match dir with
          | MoveDirection.down => (x, y + 1)
          | MoveDirection.right => (x + 1, y)
          | MoveDirection.left => (x - 1, y)
        some ({ hg with state := s1.set dest (s1.get 0 dest + 1) }, acc.2 + 1)

/-- The inner (`x`) loop of `advance` over the given column list. -/
def advanceCells (dirs : Nat → Nat → MoveDirection) (y : Nat) :
    List Nat → Hourglass × Nat → Option (Hourglass × Nat)
  | [], acc => some acc
  | x :: xs, acc =>
    match advanceCell dirs x y acc with
    | none => none
    | some acc' => advanceCells dirs y xs acc'

/-- The outer (`y`) loop of `advance` over the given row list. -/
def advanceRows (dirs : Nat → Nat → MoveDirection) :
    List Nat → Hourglass × Nat → Option (Hourglass × Nat)
  | [], acc => some acc
  | y :: ys, acc =>
    match advanceCells dirs y (List.range acc.1.width) acc with
    | none => none
    | some acc' => advanceRows dirs ys acc'

/-- `Hourglass::advance`: rows from bottom to top, columns left to right;
returns the updated hourglass and the number of grain movements. -/
def advance (dirs : Nat → Nat → MoveDirection) (hg : Hourglass) : Option (Hourglass × Nat) :=
  advanceRows dirs (List.range hg.height).reverse (hg, 0)

/-- A sequence of `advance` calls, one per element of the draw list,
returning the final hourglass and the total number of movements.
`settle_state` performs exactly such a sequence (its stopping rule only
decides how many ticks run). -/
def advanceSeq : List (Nat → Nat → MoveDirection) → Hourglass → Option (Hourglass × Nat)
  | [], hg => some (hg, 0)
  | d :: ds, hg =>
    match advance d hg with
    | none => none
    | some (hg', m) =>
      match advanceSeq ds hg' with
      | none => none
      | some (hg'', ms) => some (hg'', m + ms)

/-- `Hourglass::flip`: reverse both backing sequences. -/
def flip (hg : Hourglass) : Hourglass :=
  { hg with layout := hg.layout.flip, state := hg.state.flip }

/-- Structural well-formedness of an hourglass value: the two grids share
their dimensions, each backing list has the right length, and the
construction contract's shape conditions (odd width, height more than
width) hold.  `Hourglass::new` establishes all of this. -/
def WF (hg : Hourglass) : Prop :=
  hg.layout.width = hg.state.width ∧ hg.layout.height = hg.state.height ∧
  hg.layout.cells.length = hg.layout.width * hg.layout.height ∧
  hg.state.cells.length = hg.state.width * hg.state.height ∧
  hg.layout.width % 2 = 1 ∧ hg.layout.width < hg.layout.height

instance (hg : Hourglass) : Decidable hg.WF := by
  unfold WF; infer_instance

/-- The cell-bound invariant: every sand count lies in `[0, MAX_CELL_SAND]`. -/
def cellBound (hg : Hourglass) : Prop :=
  ∀ v ∈ hg.state.cells, v ≤ MAX_CELL_SAND

instance (hg : Hourglass) : Decidable hg.cellBound := by
  unfold cellBound; exact List.decidableBAll _ _

/-- Column `0` carries no sand. -/
def col0Free (hg : Hourglass) : Prop :=
  ∀ y, y < hg.height → hg.state.get 0 (0, y) = 0

instance (hg : Hourglass) : Decidable hg.col0Free := by
  unfold col0Free; exact Nat.decidableBallLT _ _

end Hourglass

/-- Whether a layout grid holds a wall at a position. -/
def isWallAt (g : Grid LayoutCell) (pos : Nat × Nat) : Bool :=
  match g.get LayoutCell.empty pos with
  | LayoutCell.wall _ => true
  | LayoutCell.empty => false

/-- Solidity at possibly-out-of-grid integer coordinates, as §4.3 of the
specification words it: positions outside the grid are solid.  Used only
by `specCanFlow`, the spec-side of the refinement comparison for the flow
rule. -/
def solidAtZ (hg : Hourglass) (x y : Int) : Bool :=
  if 0 ≤ x ∧ x < (hg.width : Int) ∧ 0 ≤ y ∧ y < (hg.height : Int) then
    hg.is_solid_at (x.toNat, y.toNat)
  else true

/-- Sand count at possibly-out-of-grid integer coordinates (zero outside
the grid; only compared under a non-solidity guard, which forces the
position in-grid). Used only by `specCanFlow`. -/
def sandAtZ (hg : Hourglass) (x y : Int) : Nat :=
  if 0 ≤ x ∧ x < (hg.width : Int) ∧ 0 ≤ y ∧ y < (hg.height : Int) then
    hg.state.get 0 (x.toNat, y.toNat)
  else 0

/-- The flow-legality rule exactly as the specification (§4.4) words it:
a cell with zero grains never moves; Down is legal iff the cell is not in
the bottom-most row and the cell directly below is not solid; Right/Left
are legal iff the cell below is solid, the lateral neighbour is not
solid, and either the cell holds more than one grain with count minus one
exceeding the neighbour's count, or both the lateral neighbour and the
cell diagonally below that neighbour are non-solid.  This definition
follows the spec's words (with out-of-grid neighbours treated as solid
per §4.3); it is compared against the source-translated `can_flow`. -/
def specCanFlow (hg : Hourglass) (pos : Nat × Nat) (dir : MoveDirection) : Bool :=
  let x : Int := pos.1
  let y : Int := pos.2
  let sand := hg.state.get 0 pos
  if sand = 0 then false
  else
    match dir with
    | MoveDirection.down =>
      decide (pos.2 ≠ hg.height - 1) && !solidAtZ hg x (y + 1)
    | MoveDirection.right =>
      solidAtZ hg x (y + 1) && !solidAtZ hg (x + 1) y &&
        ((decide (1 < sand) && decide (sandAtZ hg (x + 1) y < sand - 1)) ||
         (!solidAtZ hg (x + 1) y && !solidAtZ hg (x + 1) (y + 1)))
    | MoveDirection.left =>
      solidAtZ hg x (y + 1) && !solidAtZ hg (x - 1) y &&
        ((decide (1 < sand) && decide (sandAtZ hg (x - 1) y < sand - 1)) ||
         (!solidAtZ hg (x - 1) y && !solidAtZ hg (x - 1) (y + 1)))

/-- The hourglass produced by `Hourglass::new(3, 5)` (proved below where
used), the concrete instance of several witnesses: a `3 × 5` glass whose
interior is the single column `(1, 1), (1, 2), (1, 3)`. -/
def hg35 : Hourglass :=
  { layout := ⟨3, 5,
      [LayoutCell.wall '=', LayoutCell.wall '=', LayoutCell.wall '=',
       LayoutCell.wall '\\', LayoutCell.empty, LayoutCell.wall '/',
       LayoutCell.wall '|', LayoutCell.empty, LayoutCell.wall '|',
       LayoutCell.wall '/', LayoutCell.empty, LayoutCell.wall '\\',
       LayoutCell.wall '=', LayoutCell.wall '=', LayoutCell.wall '=']⟩,
    state := ⟨3, 5, [0, 0, 0, 0, 0, 0, 0, 0, 0, 0, 0, 0, 0, 0, 0]⟩,
    pinched := false }

/-- `hg35` after placing one grain at the interior cell `(1, 1)`. -/
def hg35g : Hourglass := (hg35.try_place_sand (1, 1)).2

/-- `hg35` after placing one grain at `(0, 1)` — a wall cell of column 0
with the wall cell `(0, 2)` directly below it (`try_place_sand` accepts
this, see claim C10). -/
def hg35w : Hourglass := (hg35.try_place_sand (0, 1)).2

/-- `hg35` with the pinch engaged. -/
def hg35p : Hourglass := hg35.pinch

/-! ### Helper lemmas about lists and grids -/

theorem list_getD_set_self {α : Type} (l : List α) (i : Nat) (v d : α)
    (h : i < l.length) : (l.set i v).getD i d = v := by
  simp [List.getD_eq_getElem?_getD, List.getElem?_set_self h]

theorem list_getD_set_ne {α : Type} (l : List α) (i j : Nat) (v d : α)
    (h : i ≠ j) : (l.set i v).getD j d = l.getD j d := by
  simp [List.getD_eq_getElem?_getD, List.getElem?_set_ne h]

theorem list_getD_replicate {α : Type} (n i : Nat) (d : α) :
    (List.replicate n d).getD i d = d := by
  rw [List.getD_eq_getElem?_getD, List.getElem?_replicate]
  split <;> rfl

theorem list_sum_set (l : List Nat) (i v : Nat) (h : i < l.length) :
    (l.set i v).sum + l.getD i 0 = l.sum + v := by
  induction l generalizing i with
  | nil => simp at h
  | cons a t ih =>
    cases i with
    | zero =>
      simp only [List.set, List.sum_cons, List.getD_cons_zero]
      omega
    | succ n =>
      have ht : n < t.length := by simpa using h
      have := ih n ht
      simp only [List.set, List.sum_cons, List.getD_cons_succ]
      omega

theorem list_sum_eq_zero (l : List Nat) : l.sum = 0 ↔ ∀ x ∈ l, x = 0 := by
  induction l with
  | nil => simp
  | cons a t ih => simp [ih]

namespace Grid

theorem width_set {α : Type} (g : Grid α) (p : Nat × Nat) (v : α) :
    (g.set p v).width = g.width := rfl

theorem height_set {α : Type} (g : Grid α) (p : Nat × Nat) (v : α) :
    (g.set p v).height = g.height := rfl

theorem length_set {α : Type} (g : Grid α) (p : Nat × Nat) (v : α) :
    (g.set p v).cells.length = g.cells.length := by
  simp [Grid.set]

theorem flatIdx_set {α : Type} (g : Grid α) (p q : Nat × Nat) (v : α) :
    (g.set p v).flatIdx q = g.flatIdx q := rfl

theorem get_set_self {α : Type} (g : Grid α) (d v : α) (p : Nat × Nat)
    (h : g.flatIdx p < g.cells.length) : (g.set p v).get d p = v :=
  list_getD_set_self _ _ _ _ h

theorem get_set_ne {α : Type} (g : Grid α) (d v : α) (p q : Nat × Nat)
    (h : g.flatIdx p ≠ g.flatIdx q) : (g.set p v).get d q = g.get d q :=
  list_getD_set_ne _ _ _ _ _ h

theorem flatIdx_lt {α : Type} (g : Grid α) (p : Nat × Nat)
    (hx : p.1 < g.width) (hy : p.2 < g.height)
    (hlen : g.cells.length = g.width * g.height) :
    g.flatIdx p < g.cells.length := by
  have h1 : p.2 * g.width + p.1 < (p.2 + 1) * g.width := by
    rw [Nat.succ_mul]; omega
  have h2 : (p.2 + 1) * g.width ≤ g.height * g.width :=
    Nat.mul_le_mul_right _ hy
  have h3 : g.height * g.width = g.width * g.height := Nat.mul_comm _ _
  simp only [flatIdx, hlen]
  omega

theorem flatIdx_inj {α : Type} (g : Grid α) (p q : Nat × Nat)
    (hp : p.1 < g.width) (hq : q.1 < g.width) (hne : p ≠ q) :
    g.flatIdx p ≠ g.flatIdx q := by
  intro h
  apply hne
  simp only [flatIdx] at h
  have hw : 0 < g.width := Nat.lt_of_le_of_lt (Nat.zero_le _) hp
  have hx : p.1 = q.1 := by
    have h1 : p.1 % g.width = q.1 % g.width := by
      calc p.1 % g.width
          = (p.1 + p.2 * g.width) % g.width := (Nat.add_mul_mod_self_right _ _ _).symm
        _ = (q.1 + q.2 * g.width) % g.width := by rw [show p.1 + p.2 * g.width = q.1 + q.2 * g.width by omega]
        _ = q.1 % g.width := Nat.add_mul_mod_self_right _ _ _
    rwa [Nat.mod_eq_of_lt hp, Nat.mod_eq_of_lt hq] at h1
  have hy : p.2 = q.2 := by
    have h2 : p.2 * g.width = q.2 * g.width := by omega
    exact Nat.eq_of_mul_eq_mul_right hw h2
  exact Prod.ext hx hy

theorem get_new {α : Type} (w h : Nat) (v : α) (p : Nat × Nat) :
    (Grid.new w h v).get v p = v :=
  list_getD_replicate _ _ _

end Grid

/-! ### The fill budget at the endpoint fullness values -/

theorem fillBudget_zero (n : Nat) : Hourglass.fillBudget n 0 = 0 := by
  simp [Hourglass.fillBudget]

theorem f32round_exact (n : Nat) (h : n ≤ 2 ^ 24) : Hourglass.f32round n = n := by
  unfold Hourglass.f32round
  rw [if_pos h]

theorem fillBudget_one (n : Nat) (h : n * MAX_CELL_SAND ≤ 2 ^ 24) :
    Hourglass.fillBudget n 1 = n * MAX_CELL_SAND := by
  unfold Hourglass.fillBudget
  rw [mul_one, Int.floor_natCast, Int.toNat_natCast, f32round_exact _ h]

theorem fill_one_eq (hg : Hourglass)
    (h : hg.get_interior_positions.length * MAX_CELL_SAND ≤ 2 ^ 24) :
    hg.fill_with_sand_from_top 1
      = Hourglass.fillGo hg hg.get_interior_positions
          (hg.get_interior_positions.length * MAX_CELL_SAND) := by
  simp only [Hourglass.fill_with_sand_from_top]
  rw [fillBudget_one _ h]

/-! ### C7: try_place_sand on saturated and unsaturated cells -/

/-- C7: for every in-bounds position of a well-formed hourglass,
`try_place_sand` on a cell already holding `MAX_CELL_SAND = 2` grains
returns `false` and leaves the entire hourglass (both grids and the pinch
flag) unchanged, and on a cell holding fewer than 2 grains it returns
`true` and increments exactly that cell's count by one, leaving every
other cell, the layout grid and the pinch flag unchanged. -/
theorem C7_try_place_sand_contract (hg : Hourglass) (pos : Nat × Nat)
    (hW : hg.WF) (hx : pos.1 < hg.state.width) (hy : pos.2 < hg.state.height) :
    (hg.state.get 0 pos = MAX_CELL_SAND → hg.try_place_sand pos = (false, hg)) ∧
    (hg.state.get 0 pos < MAX_CELL_SAND →
      (hg.try_place_sand pos).1 = true ∧
      (hg.try_place_sand pos).2.state.get 0 pos = hg.state.get 0 pos + 1 ∧
      (∀ q : Nat × Nat, q.1 < hg.state.width → q.2 < hg.state.height → q ≠ pos →
        (hg.try_place_sand pos).2.state.get 0 q = hg.state.get 0 q) ∧
      (hg.try_place_sand pos).2.layout = hg.layout ∧
      (hg.try_place_sand pos).2.pinched = hg.pinched) := by
  obtain ⟨hww, hhh, hlenL, hlenS, hodd, hwh⟩ := hW
  constructor
  · intro h2
    unfold Hourglass.try_place_sand
    rw [if_neg (by omega)]
  · intro hlt
    unfold Hourglass.try_place_sand
    rw [if_pos hlt]
    refine ⟨rfl, ?_, ?_, rfl, rfl⟩
    · exact Grid.get_set_self _ _ _ _ (Grid.flatIdx_lt _ _ hx hy hlenS)
    · intro q hqx hqy hqne
      exact Grid.get_set_ne _ _ _ _ _
        (Grid.flatIdx_inj _ pos q hx hqx (Ne.symm hqne))

/-- Witness for C7 at the concrete `3 × 5` hourglass, interior cell
`(1, 1)` holding `0 < 2` grains. -/
theorem C7_witness : (hg35.try_place_sand (1, 1)).1 = true :=
  ((C7_try_place_sand_contract hg35 (1, 1) (by decide) (by decide) (by decide)).2
    (by decide)).1

/-! ### C10: try_place_sand ignores the layout grid -/

/-- C10: `try_place_sand` consults only the sand-count grid, never the
layout: on an in-bounds position whose layout cell is a `Wall` (and which
therefore holds 0 grains) it returns `true` and records a grain inside
the wall; moreover its result (both the boolean and the updated sand
grid) depends only on the sand grid, so no check prevents seeding sand on
non-interior cells. -/
theorem C10_place_ignores_layout :
    (∀ (hg : Hourglass) (pos : Nat × Nat) (c : Char), hg.WF →
      pos.1 < hg.state.width → pos.2 < hg.state.height →
      hg.layout.get LayoutCell.empty pos = LayoutCell.wall c →
      hg.state.get 0 pos = 0 →
      (hg.try_place_sand pos).1 = true ∧
      (hg.try_place_sand pos).2.state.get 0 pos = 1) ∧
    (∀ (hg1 hg2 : Hourglass) (pos : Nat × Nat), hg1.state = hg2.state →
      (hg1.try_place_sand pos).1 = (hg2.try_place_sand pos).1 ∧
      (hg1.try_place_sand pos).2.state = (hg2.try_place_sand pos).2.state) := by
  constructor
  · intro hg pos c hW hx hy hwall h0
    obtain ⟨hww, hhh, hlenL, hlenS, hodd, hwh⟩ := hW
    unfold Hourglass.try_place_sand
    rw [if_pos (by rw [h0]; decide)]
    refine ⟨rfl, ?_⟩
    rw [Grid.get_set_self _ _ _ _ (Grid.flatIdx_lt _ _ hx hy hlenS), h0]
  · intro hg1 hg2 pos hstate
    by_cases hc : hg2.state.get 0 pos < MAX_CELL_SAND <;>
      simp [Hourglass.try_place_sand, hstate, hc]

/-- Witness for C10: the wall cell `(0, 1)` of the `3 × 5` hourglass
accepts a grain. -/
theorem C10_witness :
    (hg35.try_place_sand (0, 1)).1 = true ∧
    (hg35.try_place_sand (0, 1)).2.state.get 0 (0, 1) = 1 :=
  C10_place_ignores_layout.1 hg35 (0, 1) '\\' (by decide) (by decide) (by decide)
    (by decide) (by decide)

/-! ### C3: repeated fills break the cell bound (code bug) -/

/-- C3 (code bug): `fill_with_sand_from_top` adds its per-cell grains on
top of whatever the cells already hold, so the cell-bound invariant is
not preserved by all public operations: on the `3 × 5` hourglass, two
consecutive `fill_with_sand_from_top(1.0)` calls drive the interior cell
`(1, 1)` to 4 grains (`cellBound` fails), after which `advance`'s own
`assert!(state[here] <= MAX_CELL_SAND)` fires (modelled by `none`). -/
theorem C3_repeated_fill_breaks_bound :
    (Hourglass.new 3 5).map (fun hg =>
      (((hg.fill_with_sand_from_top 1).fill_with_sand_from_top 1).state.get 0 (1, 1),
        decide ((hg.fill_with_sand_from_top 1).fill_with_sand_from_top 1).cellBound,
        Hourglass.advance (fun _ _ => MoveDirection.down)
          ((hg.fill_with_sand_from_top 1).fill_with_sand_from_top 1)))
      = some (4, false, none) := by
  rw [show Hourglass.new 3 5 = some hg35 from by decide]
  simp only [Option.map_some']
  rw [fill_one_eq hg35 (by decide)]
  rw [fill_one_eq _ (by decide)]
  decide

/-! ### C5: the construction domain -/

/-- Counterexample to C5 as stated: width 1 is odd and height 3 exceeds
it, yet `Hourglass::new(1, 3)` fails to produce an instance (the layout
generator's middle-pipe block evaluates `width / 2 - 1` on `usize`,
which underflows for width 1; heights are odd here, so the block runs). -/
theorem C5_cex : Hourglass.new 1 3 = none ∧ 1 % 2 = 1 ∧ 1 < 3 := by decide

/-- C5 (amended): `Hourglass::new` produces an instance exactly for odd
widths and larger heights, except that width 1 combined with an odd
height also fails fatally (by `usize` underflow in `populate_layout`
rather than by the validation asserts). -/
theorem C5_construction_domain (w h : Nat) :
    (Hourglass.new w h).isSome = true ↔
      (w % 2 = 1 ∧ w < h ∧ ¬(w = 1 ∧ h % 2 = 1)) := by
  by_cases hw : w % 2 = 1 <;> by_cases hwh : w < h <;>
    simp only [Hourglass.new, populate_layout, layoutWrites, csub, Grid.new, hw, hwh] <;>
    simp [hw, hwh] <;>
    by_cases hh : h % 2 = 1 <;> by_cases h1 : 1 ≤ w / 2 <;>
    simp [hh, h1] <;> omega

/-! ### Deconstructing a successful construction -/

theorem writeAll_width (ws : List ((Nat × Nat) × Char)) (g : Grid LayoutCell) :
    (writeAll ws g).width = g.width := by
  induction ws generalizing g with
  | nil => rfl
  | cons e t ih => simp only [writeAll, List.foldl_cons] at ih ⊢; rw [ih]; rfl

theorem writeAll_height (ws : List ((Nat × Nat) × Char)) (g : Grid LayoutCell) :
    (writeAll ws g).height = g.height := by
  induction ws generalizing g with
  | nil => rfl
  | cons e t ih => simp only [writeAll, List.foldl_cons] at ih ⊢; rw [ih]; rfl

theorem writeAll_length (ws : List ((Nat × Nat) × Char)) (g : Grid LayoutCell) :
    (writeAll ws g).cells.length = g.cells.length := by
  induction ws generalizing g with
  | nil => rfl
  | cons e t ih =>
    simp only [writeAll, List.foldl_cons] at ih ⊢
    rw [ih]
    simp [Grid.set]

theorem new_elim (w h : Nat) (hg : Hourglass) (hnew : Hourglass.new w h = some hg) :
    w % 2 = 1 ∧ w < h ∧ hg.state = Grid.new w h 0 ∧ hg.pinched = false ∧
    ∃ ws, layoutWrites w h = some ws ∧
      hg.layout = writeAll ws (Grid.new w h LayoutCell.empty) := by
  unfold Hourglass.new at hnew
  split at hnew
  · simp at hnew
  · next hw =>
    split at hnew
    · simp at hnew
    · next hwh =>
      rw [populate_layout, Option.map_map] at hnew
      have hw' : w % 2 = 1 := by omega
      have hwh' : w < h := by omega
      obtain ⟨ws, hws, hmk⟩ := Option.map_eq_some'.mp hnew
      refine ⟨hw', hwh', ?_, ?_, ws, hws, ?_⟩ <;>
        rw [← hmk] <;> rfl

theorem new_WF (w h : Nat) (hg : Hourglass) (hnew : Hourglass.new w h = some hg) :
    hg.WF := by
  obtain ⟨hw, hwh, hstate, hpinch, ws, hws, hlay⟩ := new_elim w h hg hnew
  refine ⟨?_, ?_, ?_, ?_, ?_, ?_⟩ <;>
    simp [hstate, hlay, writeAll_width, writeAll_height, writeAll_length, Grid.new, hw, hwh]

/-! ### Interior positions: membership, bounds, no duplicates -/

theorem scanRow_sublist (lay : Grid LayoutCell) (y : Nat) :
    ∀ (xs : List Nat) (r : Bool), (Hourglass.scanRow lay y xs r).Sublist xs := by
  intro xs
  induction xs with
  | nil => intro r; simp [Hourglass.scanRow]
  | cons x t ih =>
    intro r
    cases r with
    | false =>
      rw [show Hourglass.scanRow lay y (x :: t) false
            = Hourglass.scanRow lay y t
                (!decide (lay.get LayoutCell.empty (x, y) = LayoutCell.empty)) from rfl]
      exact (ih _).cons x
    | true =>
      rw [show Hourglass.scanRow lay y (x :: t) true
            = (if decide (lay.get LayoutCell.empty (x, y) = LayoutCell.empty) = true
               then x :: Hourglass.scanRow lay y t true else []) from rfl]
      split
      · exact (ih true).cons₂ x
      · exact List.nil_sublist _

theorem interior_bounds (hg : Hourglass) :
    ∀ p ∈ hg.get_interior_positions, p.1 < hg.width ∧ p.2 < hg.height := by
  intro p hp
  unfold Hourglass.get_interior_positions at hp
  rw [List.mem_flatMap] at hp
  obtain ⟨y, hy, hp⟩ := hp
  rw [List.mem_map] at hp
  obtain ⟨x, hx, rfl⟩ := hp
  exact ⟨List.mem_range.mp ((scanRow_sublist _ _ _ _).subset hx),
    List.mem_range.mp hy⟩

theorem interior_nodup (hg : Hourglass) : hg.get_interior_positions.Nodup := by
  unfold Hourglass.get_interior_positions
  rw [List.nodup_flatMap]
  constructor
  · intro y hy
    exact ((scanRow_sublist _ _ _ _).nodup (List.nodup_range _)).map
      (fun a b hab => congrArg Prod.fst hab)
  · refine (List.nodup_range _).imp ?_
    intro a b hne p hpa hpb
    rw [List.mem_map] at hpa hpb
    obtain ⟨xa, _, rfl⟩ := hpa
    obtain ⟨xb, _, heq⟩ := hpb
    exact hne (congrArg Prod.snd heq).symm

/-! ### The fill loop -/

theorem list_set_getD_self {α : Type} (l : List α) (i : Nat) (d : α) :
    l.set i (l.getD i d) = l := by
  induction l generalizing i with
  | nil => rfl
  | cons a t ih =>
    cases i with
    | zero => rfl
    | succ n => simp only [List.set, List.getD_cons_succ, ih]

theorem fillGo_budget_zero (hg : Hourglass) (ps : List (Nat × Nat)) :
    Hourglass.fillGo hg ps 0 = hg := by
  cases ps with
  | nil => rfl
  | cons p rest =>
    show (if 0 - min 0 MAX_CELL_SAND = 0 then
        { hg with state := hg.state.set p (hg.state.get 0 p + min 0 MAX_CELL_SAND) }
      else Hourglass.fillGo
        { hg with state := hg.state.set p (hg.state.get 0 p + min 0 MAX_CELL_SAND) }
        rest (0 - min 0 MAX_CELL_SAND)) = hg
    rw [if_pos (show 0 - min 0 MAX_CELL_SAND = 0 from rfl)]
    have hcells : hg.state.set p (hg.state.get 0 p + min 0 MAX_CELL_SAND) = hg.state := by
      show { hg.state with cells := hg.state.cells.set (hg.state.flatIdx p) (hg.state.get 0 p + min 0 MAX_CELL_SAND) } = hg.state
      rw [show hg.state.get 0 p + min 0 MAX_CELL_SAND = hg.state.cells.getD (hg.state.flatIdx p) 0 from rfl]
      rw [list_set_getD_self]
    rw [hcells]

theorem fillGo_untouched (hg : Hourglass) (ps : List (Nat × Nat)) (n : Nat)
    (q : Nat × Nat) (hq : ∀ p ∈ ps, hg.state.flatIdx p ≠ hg.state.flatIdx q) :
    (Hourglass.fillGo hg ps n).state.get 0 q = hg.state.get 0 q := by
  induction ps generalizing hg n with
  | nil => rfl
  | cons p rest ih =>
    show (if n - min n MAX_CELL_SAND = 0 then
        { hg with state := hg.state.set p (hg.state.get 0 p + min n MAX_CELL_SAND) }
      else Hourglass.fillGo
        { hg with state := hg.state.set p (hg.state.get 0 p + min n MAX_CELL_SAND) }
        rest (n - min n MAX_CELL_SAND)).state.get 0 q = hg.state.get 0 q
    have hset : (hg.state.set p (hg.state.get 0 p + min n MAX_CELL_SAND)).get 0 q
        = hg.state.get 0 q :=
      Grid.get_set_ne _ _ _ _ _ (hq p (List.mem_cons_self p rest))
    split
    · exact hset
    · have hstep := ih { hg with state := hg.state.set p (hg.state.get 0 p + min n MAX_CELL_SAND) }
        (n - min n MAX_CELL_SAND) (fun r hr => hq r (List.mem_cons_of_mem p hr))
      rw [hstep]
      exact hset

theorem fillGo_saturates (ps : List (Nat × Nat)) :
    ∀ (hg : Hourglass),
    hg.state.cells.length = hg.state.width * hg.state.height →
    (∀ p ∈ ps, p.1 < hg.state.width ∧ p.2 < hg.state.height) →
    ps.Nodup →
    ∀ p ∈ ps, (Hourglass.fillGo hg ps (ps.length * MAX_CELL_SAND)).state.get 0 p
      = hg.state.get 0 p + MAX_CELL_SAND := by
  induction ps with
  | nil => intro hg _ _ _ p hp; exact absurd hp (List.not_mem_nil p)
  | cons p rest ih =>
    intro hg hlen hin hnd q hq
    have hbig : MAX_CELL_SAND ≤ (p :: rest).length * MAX_CELL_SAND := by
      simp [List.length_cons, Nat.succ_mul]
    have hmin : min ((p :: rest).length * MAX_CELL_SAND) MAX_CELL_SAND = MAX_CELL_SAND :=
      Nat.min_eq_right hbig
    have hrest : (p :: rest).length * MAX_CELL_SAND - MAX_CELL_SAND
        = rest.length * MAX_CELL_SAND := by
      simp [List.length_cons, Nat.succ_mul]
    show (if (p :: rest).length * MAX_CELL_SAND
            - min ((p :: rest).length * MAX_CELL_SAND) MAX_CELL_SAND = 0 then
        { hg with state := hg.state.set p (hg.state.get 0 p
            + min ((p :: rest).length * MAX_CELL_SAND) MAX_CELL_SAND) }
      else Hourglass.fillGo
        { hg with state := hg.state.set p (hg.state.get 0 p
            + min ((p :: rest).length * MAX_CELL_SAND) MAX_CELL_SAND) }
        rest ((p :: rest).length * MAX_CELL_SAND
            - min ((p :: rest).length * MAX_CELL_SAND) MAX_CELL_SAND)).state.get 0 q
      = hg.state.get 0 q + MAX_CELL_SAND
    rw [hmin, hrest]
    have hpin := hin p (List.mem_cons_self p rest)
    have hself : (hg.state.set p (hg.state.get 0 p + MAX_CELL_SAND)).get 0 p
        = hg.state.get 0 p + MAX_CELL_SAND :=
      Grid.get_set_self _ _ _ _ (Grid.flatIdx_lt _ _ hpin.1 hpin.2 hlen)
    rcases List.mem_cons.mp hq with rfl | hq'
    · split
      · exact hself
      · rw [fillGo_untouched _ rest _ q ?_]
        · exact hself
        · intro r hr
          have hrb := hin r (List.mem_cons_of_mem q hr)
          exact Grid.flatIdx_inj _ r q hrb.1 hpin.1
            (fun e => (List.nodup_cons.mp hnd).1 (e ▸ hr))
    · have hqb := hin q (List.mem_cons_of_mem p hq')
      have hne : hg.state.flatIdx p ≠ hg.state.flatIdx q :=
        Grid.flatIdx_inj _ p q hpin.1 hqb.1
          (fun e => (List.nodup_cons.mp hnd).1 (e ▸ hq'))
      have hkeep : (hg.state.set p (hg.state.get 0 p + MAX_CELL_SAND)).get 0 q
          = hg.state.get 0 q := Grid.get_set_ne _ _ _ _ _ hne
      have hzero : rest.length * MAX_CELL_SAND ≠ 0 := by
        have h1 : 0 < rest.length := List.length_pos.mpr (List.ne_nil_of_mem hq')
        have h2 : MAX_CELL_SAND = 2 := rfl
        exact Nat.mul_ne_zero (by omega) (by omega)
      rw [if_neg hzero]
      have hstep := ih { hg with state := hg.state.set p (hg.state.get 0 p + MAX_CELL_SAND) }
        (by simpa [Grid.set] using hlen)
        (fun r hr => by simpa [Grid.set] using hin r (List.mem_cons_of_mem p hr))
        (List.nodup_cons.mp hnd).2 q hq'
      rw [hstep]
      exact congrArg (· + MAX_CELL_SAND) hkeep

/-! ### C8: filling at the endpoint fullness values -/

/-- Counterexample to C8 as stated ("on any hourglass"): on `hg35g`,
reachable by placing one grain at the interior cell `(1, 1)` of a fresh
`3 × 5` hourglass, `fill_with_sand_from_top 0.0` leaves that interior
cell holding 1 grain (not empty), and `fill_with_sand_from_top 1.0`
drives it to 3 grains (not 2): the fill adds grains on top of existing
sand, so the claimed outcomes hold only from an all-zero state. -/
theorem C8_cex :
    (1, 1) ∈ hg35g.get_interior_positions ∧
    (hg35g.fill_with_sand_from_top 0).state.get 0 (1, 1) = 1 ∧
    (hg35g.fill_with_sand_from_top 1).state.get 0 (1, 1) = 3 := by
  refine ⟨by decide, ?_, ?_⟩
  · simp only [Hourglass.fill_with_sand_from_top]
    rw [fillBudget_zero, fillGo_budget_zero]
    decide
  · rw [fill_one_eq hg35g (by decide)]
    decide

/-- C8 (amended): on a freshly constructed hourglass (all cells hold zero
grains), `fill_with_sand_from_top 0.0` is the identity — in particular
every interior cell stays empty — and, provided the grain budget
`interior-count × MAX_CELL_SAND` does not exceed `2 ^ 24` (so the
`usize → f32` cast of the budget is exact), `fill_with_sand_from_top 1.0`
saturates every interior cell to `MAX_CELL_SAND = 2` grains, walking the
row-major interior enumeration.  For larger interiors the cast rounds the
budget and a full fill can leave the last interior cells short. -/
theorem C8_fill_endpoints (w h : Nat) (hg : Hourglass)
    (hnew : Hourglass.new w h = some hg)
    (hsmall : hg.get_interior_positions.length * MAX_CELL_SAND ≤ 2 ^ 24) :
    (hg.fill_with_sand_from_top 0 = hg) ∧
    (∀ p ∈ hg.get_interior_positions,
      (hg.fill_with_sand_from_top 1).state.get 0 p = MAX_CELL_SAND) := by
  have hWF := new_WF w h hg hnew
  obtain ⟨hw, hwh, hstate, hpinch, ws, hws, hlay⟩ := new_elim w h hg hnew
  constructor
  · simp only [Hourglass.fill_with_sand_from_top]
    rw [fillBudget_zero, fillGo_budget_zero]
  · intro p hp
    simp only [Hourglass.fill_with_sand_from_top]
    rw [fillBudget_one _ hsmall]
    have hbounds : ∀ q ∈ hg.get_interior_positions,
        q.1 < hg.state.width ∧ q.2 < hg.state.height := by
      intro q hq
      have hb := interior_bounds hg q hq
      exact ⟨hWF.1 ▸ hb.1, hWF.2.1 ▸ hb.2⟩
    rw [fillGo_saturates hg.get_interior_positions hg hWF.2.2.2.1 hbounds
      (interior_nodup hg) p hp]
    rw [hstate, Grid.get_new, Nat.zero_add]

/-- Witness for C8 at the fresh `3 × 5` hourglass: the interior cell
`(1, 1)` is saturated to 2 by a full fill. -/
theorem C8_witness :
    (hg35.fill_with_sand_from_top 1).state.get 0 (1, 1) = MAX_CELL_SAND :=
  (C8_fill_endpoints 3 5 hg35 (by decide) (by decide)).2 (1, 1) (by decide)

/-! ### Facts extracted from solidity and flow checks -/

theorem is_solid_at_false (hg : Hourglass) (p : Nat × Nat)
    (h : hg.is_solid_at p = false) :
    p.1 < hg.layout.width ∧ p.2 < hg.layout.height ∧
    hg.layout.get LayoutCell.empty p = LayoutCell.empty ∧
    hg.state.get 0 p < MAX_CELL_SAND := by
  unfold Hourglass.is_solid_at at h
  by_cases hin : hg.layout.isInBounds p = false
  · rw [if_pos hin] at h
    exact absurd h (by simp)
  · rw [if_neg hin] at h
    have hb : hg.layout.isInBounds p = true := by
      cases hb2 : hg.layout.isInBounds p
      · exact absurd hb2 hin
      · rfl
    have hbounds : p.1 < hg.layout.width ∧ p.2 < hg.layout.height := by
      simpa [Grid.isInBounds] using hb
    cases hc : hg.layout.get LayoutCell.empty p with
    | wall c =>
      rw [hc] at h
      exact absurd h (by simp)
    | empty =>
      rw [hc] at h
      simp only [decide_eq_false_iff_not, Nat.not_le] at h
      exact ⟨hbounds.1, hbounds.2, rfl, h⟩

theorem can_flow_some_bounds (hg : Hourglass) (pos : Nat × Nat)
    (dir : MoveDirection) (b : Bool) (h : hg.can_flow pos dir = some b) :
    pos.1 < hg.state.width ∧ pos.2 < hg.state.height := by
  unfold Hourglass.can_flow at h
  by_cases hin : hg.state.isInBounds pos = false
  · rw [if_pos hin] at h
    exact absurd h (by simp)
  · have hb : hg.state.isInBounds pos = true := by
      cases hb2 : hg.state.isInBounds pos
      · exact absurd hb2 hin
      · rfl
    simpa [Grid.isInBounds] using hb

theorem can_flow_true (hg : Hourglass) (x y : Nat) (dir : MoveDirection)
    (h : hg.can_flow (x, y) dir = some true) :
    1 ≤ hg.state.get 0 (x, y) ∧
    (dir = MoveDirection.down → hg.is_solid_at (x, y + 1) = false) ∧
    (dir = MoveDirection.right → hg.is_solid_at (x + 1, y) = false) ∧
    (dir = MoveDirection.left → 1 ≤ x ∧ hg.is_solid_at (x - 1, y) = false) := by
  unfold Hourglass.can_flow at h
  by_cases hin : hg.state.isInBounds (x, y) = false
  · rw [if_pos hin] at h
    exact absurd h (by simp)
  · rw [if_neg hin] at h
    dsimp only at h
    by_cases hsand : hg.state.get 0 (x, y) < 1
    · rw [if_pos hsand] at h
      exact absurd h (by simp)
    · rw [if_neg hsand] at h
      refine ⟨by omega, ?_, ?_, ?_⟩
      · intro hdir
        subst hdir
        simp only [Option.some.injEq, Bool.and_eq_true, Bool.not_eq_eq_eq_not,
          Bool.not_true] at h
        exact h.2
      · intro hdir
        subst hdir
        simp only [Option.some.injEq, Bool.and_eq_true, Bool.not_eq_eq_eq_not,
          Bool.not_true] at h
        exact h.1.2
      · intro hdir
        subst hdir
        by_cases hsb : hg.is_solid_at (x, y + 1) = false
        · rw [if_pos hsb] at h
          exact absurd h (by simp)
        · rw [if_neg hsb] at h
          rcases hx1 : csub x 1 with _ | xl
          · rw [hx1] at h
            exact absurd h (by simp)
          · rw [hx1] at h
            have hxge : 1 ≤ x ∧ xl = x - 1 := by
              unfold csub at hx1
              by_cases hle : 1 ≤ x
              · rw [if_pos hle] at hx1
                exact ⟨hle, (Option.some.injEq _ _ ▸ hx1).symm⟩
              · rw [if_neg hle] at hx1
                exact absurd hx1 (by simp)
            simp only [Option.some.injEq, Bool.and_eq_true, Bool.not_eq_eq_eq_not,
              Bool.not_true] at h
            exact ⟨hxge.1, hxge.2 ▸ h.1⟩

/-! ### The shape of one advance cell step -/

theorem advanceCell_shape (dirs : Nat → Nat → MoveDirection) (x y : Nat)
    (acc acc' : Hourglass × Nat)
    (h : Hourglass.advanceCell dirs x y acc = some acc') :
    acc' = acc ∨
    (Hourglass.can_flow acc.1 (x, y) (dirs x y) = some true ∧
     (acc.1.pinched = true → y = acc.1.height / 2 - 1 → dirs x y ≠ MoveDirection.down) ∧
     acc'.1.layout = acc.1.layout ∧ acc'.1.pinched = acc.1.pinched ∧
     ∃ dest : Nat × Nat,
       (dirs x y = MoveDirection.down → dest = (x, y + 1)) ∧
       (dirs x y = MoveDirection.right → dest = (x + 1, y)) ∧
       (dirs x y = MoveDirection.left → dest = (x - 1, y)) ∧
       acc'.1.state = (acc.1.state.set (x, y) (acc.1.state.get 0 (x, y) - 1)).set dest ((acc.1.state.set (x, y) (acc.1.state.get 0 (x, y) - 1)).get 0 dest + 1)) := by
  unfold Hourglass.advanceCell at h
  by_cases h1 : MAX_CELL_SAND < acc.1.state.get 0 (x, y)
  · rw [if_pos h1] at h
    exact absurd h (by simp)
  · rw [if_neg h1] at h
    dsimp only at h
    by_cases h2 : ((acc.1.pinched && decide (y = acc.1.height / 2 - 1))
        && decide (dirs x y = MoveDirection.down)) = true
    · rw [if_pos h2] at h
      left
      exact (Option.some.inj h).symm
    · rw [if_neg h2] at h
      rcases hcf : Hourglass.can_flow acc.1 (x, y) (dirs x y) with _ | b
      · rw [hcf] at h
        exact absurd h (by simp)
      · rw [hcf] at h
        cases b with
        | false =>
          left
          exact (Option.some.inj h).symm
        | true =>
          right
          have hacc : acc' = _ := (Option.some.inj h).symm
          refine ⟨rfl, ?_, ?_, ?_, ?_⟩
          · intro hp hy hd
            exact h2 (by rw [hp, hd, hy]; simp)
          · rw [hacc]
          · rw [hacc]
          · rcases hdir : dirs x y with _ | _ | _
            · exact ⟨(x, y + 1), fun _ => rfl, by simp [hdir], by simp [hdir],
                by rw [hacc]; dsimp only; rw [hdir]⟩
            · exact ⟨(x + 1, y), by simp [hdir], fun _ => rfl, by simp [hdir],
                by rw [hacc]; dsimp only; rw [hdir]⟩
            · exact ⟨(x - 1, y), by simp [hdir], by simp [hdir], fun _ => rfl,
                by rw [hacc]; dsimp only; rw [hdir]⟩

theorem move_sum (st : Grid Nat) (src dest : Nat × Nat)
    (hs : st.flatIdx src < st.cells.length)
    (hd : st.flatIdx dest < st.cells.length)
    (hne : st.flatIdx src ≠ st.flatIdx dest)
    (hv : 1 ≤ st.get 0 src) :
    ((st.set src (st.get 0 src - 1)).set dest
      ((st.set src (st.get 0 src - 1)).get 0 dest + 1)).cells.sum = st.cells.sum := by
  have hlen1 : (st.set src (st.get 0 src - 1)).cells.length = st.cells.length :=
    Grid.length_set _ _ _
  have hsum1 : (st.set src (st.get 0 src - 1)).cells.sum
      + st.cells.getD (st.flatIdx src) 0 = st.cells.sum + (st.get 0 src - 1) :=
    list_sum_set _ _ _ hs
  have hsum2 : ((st.set src (st.get 0 src - 1)).set dest
        ((st.set src (st.get 0 src - 1)).get 0 dest + 1)).cells.sum
      + (st.set src (st.get 0 src - 1)).cells.getD (st.flatIdx dest) 0
      = (st.set src (st.get 0 src - 1)).cells.sum
      + ((st.set src (st.get 0 src - 1)).get 0 dest + 1) :=
    list_sum_set _ _ _ (by rw [hlen1]; exact hd)
  have hgd : (st.set src (st.get 0 src - 1)).get 0 dest
      = (st.set src (st.get 0 src - 1)).cells.getD (st.flatIdx dest) 0 := rfl
  have hgs : st.get 0 src = st.cells.getD (st.flatIdx src) 0 := rfl
  omega

theorem advanceCell_preserves (dirs : Nat → Nat → MoveDirection) (x y : Nat)
    (acc acc' : Hourglass × Nat) (hW : acc.1.WF)
    (h : Hourglass.advanceCell dirs x y acc = some acc') :
    acc'.1.layout = acc.1.layout ∧ acc'.1.pinched = acc.1.pinched ∧
    acc'.1.state.width = acc.1.state.width ∧
    acc'.1.state.height = acc.1.state.height ∧
    acc'.1.state.cells.length = acc.1.state.cells.length ∧
    acc'.1.state.cells.sum = acc.1.state.cells.sum := by
  rcases advanceCell_shape dirs x y acc acc' h with rfl |
    ⟨hcf, hskip, hlay, hpin, dest, hdd, hdr, hdl, hst⟩
  · exact ⟨rfl, rfl, rfl, rfl, rfl, rfl⟩
  · obtain ⟨hww, hhh, hlenL, hlenS, hodd, hwh⟩ := hW
    have hb := can_flow_some_bounds acc.1 (x, y) (dirs x y) true hcf
    have hcft := can_flow_true acc.1 x y (dirs x y) hcf
    have hdest : dest.1 < acc.1.state.width ∧ dest.2 < acc.1.state.height
        ∧ dest ≠ (x, y) := by
      rcases hdir : dirs x y with _ | _ | _
      · rw [hdd hdir]
        have hs := is_solid_at_false acc.1 (x, y + 1) (hcft.2.1 hdir)
        exact ⟨by rw [← hww]; exact hs.1, by rw [← hhh]; exact hs.2.1, by simp⟩
      · rw [hdr hdir]
        have hs := is_solid_at_false acc.1 (x + 1, y) (hcft.2.2.1 hdir)
        exact ⟨by rw [← hww]; exact hs.1, by rw [← hhh]; exact hs.2.1, by simp⟩
      · rw [hdl hdir]
        obtain ⟨hx1, hsl⟩ := hcft.2.2.2 hdir
        have hs := is_solid_at_false acc.1 (x - 1, y) hsl
        refine ⟨by rw [← hww]; exact hs.1, by rw [← hhh]; exact hs.2.1, ?_⟩
        intro e
        rw [Prod.mk.injEq] at e
        omega
    have hsI : acc.1.state.flatIdx (x, y) < acc.1.state.cells.length :=
      Grid.flatIdx_lt _ _ hb.1 hb.2 hlenS
    have hdI : acc.1.state.flatIdx dest < acc.1.state.cells.length :=
      Grid.flatIdx_lt _ _ hdest.1 hdest.2.1 hlenS
    have hne : acc.1.state.flatIdx (x, y) ≠ acc.1.state.flatIdx dest :=
      Grid.flatIdx_inj _ _ _ hb.1 hdest.1 (Ne.symm hdest.2.2)
    have hsum := move_sum acc.1.state (x, y) dest hsI hdI hne hcft.1
    refine ⟨hlay, hpin, by rw [hst]; rfl, by rw [hst]; rfl, ?_, ?_⟩
    · rw [hst]
      simp [Grid.set]
    · rw [hst]
      exact hsum

theorem advanceCell_WF (dirs : Nat → Nat → MoveDirection) (x y : Nat)
    (acc acc' : Hourglass × Nat) (hW : acc.1.WF)
    (h : Hourglass.advanceCell dirs x y acc = some acc') : acc'.1.WF := by
  obtain ⟨hlay, hpin, hw, hh, hlen, hsum⟩ := advanceCell_preserves dirs x y acc acc' hW h
  obtain ⟨hww, hhh, hlenL, hlenS, hodd, hwh⟩ := hW
  exact ⟨by rw [hlay, hw]; exact hww, by rw [hlay, hh]; exact hhh,
    by rw [hlay]; exact hlenL, by rw [hlen, hw, hh]; exact hlenS,
    by rw [hlay]; exact hodd, by rw [hlay]; exact hwh⟩

theorem advanceCells_cons (dirs : Nat → Nat → MoveDirection) (y x : Nat)
    (xs : List Nat) (acc : Hourglass × Nat) :
    Hourglass.advanceCells dirs y (x :: xs) acc
      = (match Hourglass.advanceCell dirs x y acc with
         | none => none
         | some acc2 => Hourglass.advanceCells dirs y xs acc2) := rfl

theorem advanceRows_cons (dirs : Nat → Nat → MoveDirection) (y : Nat)
    (ys : List Nat) (acc : Hourglass × Nat) :
    Hourglass.advanceRows dirs (y :: ys) acc
      = (match Hourglass.advanceCells dirs y (List.range acc.1.width) acc with
         | none => none
         | some acc2 => Hourglass.advanceRows dirs ys acc2) := rfl

theorem advanceCells_preserves (dirs : Nat → Nat → MoveDirection) (y : Nat) :
    ∀ (xs : List Nat) (acc acc' : Hourglass × Nat), acc.1.WF →
    Hourglass.advanceCells dirs y xs acc = some acc' →
    acc'.1.WF ∧ acc'.1.layout = acc.1.layout ∧ acc'.1.pinched = acc.1.pinched ∧
    acc'.1.state.width = acc.1.state.width ∧
    acc'.1.state.height = acc.1.state.height ∧
    acc'.1.state.cells.length = acc.1.state.cells.length ∧
    acc'.1.state.cells.sum = acc.1.state.cells.sum := by
  intro xs
  induction xs with
  | nil =>
    intro acc acc' hW h
    cases Option.some.inj h
    exact ⟨hW, rfl, rfl, rfl, rfl, rfl, rfl⟩
  | cons x xs ih =>
    intro acc acc' hW h
    rw [advanceCells_cons] at h
    rcases ha : Hourglass.advanceCell dirs x y acc with _ | acc2
    · rw [ha] at h
      exact absurd h (by simp)
    · rw [ha] at h
      have h' : Hourglass.advanceCells dirs y xs acc2 = some acc' := h
      have p1 := advanceCell_preserves dirs x y acc acc2 hW ha
      have hW2 := advanceCell_WF dirs x y acc acc2 hW ha
      have p2 := ih acc2 acc' hW2 h'
      exact ⟨p2.1, p2.2.1.trans p1.1, p2.2.2.1.trans p1.2.1,
        p2.2.2.2.1.trans p1.2.2.1, p2.2.2.2.2.1.trans p1.2.2.2.1,
        p2.2.2.2.2.2.1.trans p1.2.2.2.2.1, p2.2.2.2.2.2.2.trans p1.2.2.2.2.2⟩

theorem advanceRows_preserves (dirs : Nat → Nat → MoveDirection) :
    ∀ (ys : List Nat) (acc acc' : Hourglass × Nat), acc.1.WF →
    Hourglass.advanceRows dirs ys acc = some acc' →
    acc'.1.WF ∧ acc'.1.layout = acc.1.layout ∧ acc'.1.pinched = acc.1.pinched ∧
    acc'.1.state.width = acc.1.state.width ∧
    acc'.1.state.height = acc.1.state.height ∧
    acc'.1.state.cells.length = acc.1.state.cells.length ∧
    acc'.1.state.cells.sum = acc.1.state.cells.sum := by
  intro ys
  induction ys with
  | nil =>
    intro acc acc' hW h
    cases Option.some.inj h
    exact ⟨hW, rfl, rfl, rfl, rfl, rfl, rfl⟩
  | cons y ys ih =>
    intro acc acc' hW h
    rw [advanceRows_cons] at h
    rcases ha : Hourglass.advanceCells dirs y (List.range acc.1.width) acc with _ | acc2
    · rw [ha] at h
      exact absurd h (by simp)
    · rw [ha] at h
      have h' : Hourglass.advanceRows dirs ys acc2 = some acc' := h
      have p1 := advanceCells_preserves dirs y (List.range acc.1.width) acc acc2 hW ha
      have p2 := ih acc2 acc' p1.1 h'
      exact ⟨p2.1, p2.2.1.trans p1.2.1, p2.2.2.1.trans p1.2.2.1,
        p2.2.2.2.1.trans p1.2.2.2.1, p2.2.2.2.2.1.trans p1.2.2.2.2.1,
        p2.2.2.2.2.2.1.trans p1.2.2.2.2.2.1, p2.2.2.2.2.2.2.trans p1.2.2.2.2.2.2⟩

theorem advance_preserves (dirs : Nat → Nat → MoveDirection)
    (hg : Hourglass) (r : Hourglass × Nat) (hW : hg.WF)
    (h : Hourglass.advance dirs hg = some r) :
    r.1.WF ∧ r.1.layout = hg.layout ∧ r.1.pinched = hg.pinched ∧
    r.1.state.width = hg.state.width ∧ r.1.state.height = hg.state.height ∧
    r.1.state.cells.length = hg.state.cells.length ∧
    r.1.state.cells.sum = hg.state.cells.sum :=
  advanceRows_preserves dirs (List.range hg.height).reverse (hg, 0) r hW h

theorem advanceSeq_preserves :
    ∀ (ds : List (Nat → Nat → MoveDirection)) (hg : Hourglass)
      (r : Hourglass × Nat), hg.WF →
    Hourglass.advanceSeq ds hg = some r →
    r.1.WF ∧ r.1.layout = hg.layout ∧ r.1.pinched = hg.pinched ∧
    r.1.state.width = hg.state.width ∧ r.1.state.height = hg.state.height ∧
    r.1.state.cells.length = hg.state.cells.length ∧
    r.1.state.cells.sum = hg.state.cells.sum := by
  intro ds
  induction ds with
  | nil =>
    intro hg r hW h
    cases Option.some.inj h
    exact ⟨hW, rfl, rfl, rfl, rfl, rfl, rfl⟩
  | cons d ds ih =>
    intro hg r hW h
    rw [show Hourglass.advanceSeq (d :: ds) hg
        = (match Hourglass.advance d hg with
           | none => none
           | some (hg', m) =>
             (match Hourglass.advanceSeq ds hg' with
              | none => none
              | some (hg'', ms) => some (hg'', m + ms))) from rfl] at h
    rcases ha : Hourglass.advance d hg with _ | ⟨hg1, m1⟩
    · rw [ha] at h
      exact absurd h (by simp)
    · rw [ha] at h
      have p1 := advance_preserves d hg (hg1, m1) hW ha
      have h2 : (match Hourglass.advanceSeq ds hg1 with
                 | none => none
                 | some (hg'', ms) => some (hg'', m1 + ms)) = some r := h
      rcases hb : Hourglass.advanceSeq ds hg1 with _ | ⟨hg2, m2⟩
      · rw [hb] at h2
        exact absurd h2 (by simp)
      · rw [hb] at h2
        have p2 := ih hg1 (hg2, m2) p1.1 hb
        have h3 : some ((hg2, m1 + m2) : Hourglass × Nat) = some r := h2
        cases Option.some.inj h3
        exact ⟨p2.1, p2.2.1.trans p1.2.1, p2.2.2.1.trans p1.2.2.1,
          p2.2.2.2.1.trans p1.2.2.2.1, p2.2.2.2.2.1.trans p1.2.2.2.2.1,
          p2.2.2.2.2.2.1.trans p1.2.2.2.2.2.1, p2.2.2.2.2.2.2.trans p1.2.2.2.2.2.2⟩

/-! ### C1: grain conservation -/

/-- C1: total grain count is conserved by `advance`: for every well-formed
hourglass state satisfying the cell-bound invariant and every random
direction sequence, whenever an `advance` call completes, the sum of all
state-grid cell values afterwards equals the sum before — and hence the
sum is conserved across any sequence of completed `advance` calls. -/
theorem C1_advance_conserves_sand (hg : Hourglass) (hW : hg.WF)
    (hB : hg.cellBound) :
    (∀ (dirs : Nat → Nat → MoveDirection) (r : Hourglass × Nat),
      Hourglass.advance dirs hg = some r →
      r.1.state.cells.sum = hg.state.cells.sum) ∧
    (∀ (ds : List (Nat → Nat → MoveDirection)) (r : Hourglass × Nat),
      Hourglass.advanceSeq ds hg = some r →
      r.1.state.cells.sum = hg.state.cells.sum) :=
  ⟨fun dirs r h => (advance_preserves dirs hg r hW h).2.2.2.2.2.2,
   fun ds r h => (advanceSeq_preserves ds hg r hW h).2.2.2.2.2.2⟩

/-- Witness for C1: one grain placed at `(1, 1)` of the `3 × 5` hourglass
falls to `(1, 2)` under an all-Down draw; the grain count (one) is
conserved. -/
theorem C1_witness :
    ({ layout := hg35.layout,
       state := ⟨3, 5, [0, 0, 0, 0, 0, 0, 0, 1, 0, 0, 0, 0, 0, 0, 0]⟩,
       pinched := false } : Hourglass).state.cells.sum
      = hg35g.state.cells.sum :=
  (C1_advance_conserves_sand hg35g (by decide) (by decide)).1
    (fun _ _ => MoveDirection.down)
    ({ layout := hg35.layout,
       state := ⟨3, 5, [0, 0, 0, 0, 0, 0, 0, 1, 0, 0, 0, 0, 0, 0, 0]⟩,
       pinched := false }, 1)
    (by decide)

/-! ### C4: a pinched neck keeps the bottom half empty -/

theorem row_flat_lt (w x y c : Nat) (hx : x < w) (hy : y < c) :
    y * w + x < c * w := by
  have h1 : y * w + x < (y + 1) * w := by rw [Nat.succ_mul]; omega
  have h2 : (y + 1) * w ≤ c * w := Nat.mul_le_mul_right _ hy
  omega

theorem row_flat_ge (w x y c : Nat) (hge : c ≤ y) : c * w ≤ y * w + x := by
  have := Nat.mul_le_mul_right w hge
  omega

theorem advanceCell_bottom (dirs : Nat → Nat → MoveDirection) (x y : Nat)
    (acc acc' : Hourglass × Nat) (hW : acc.1.WF) (hp : acc.1.pinched = true)
    (h : Hourglass.advanceCell dirs x y acc = some acc')
    (hbz : ∀ k, (acc.1.state.height / 2) * acc.1.state.width ≤ k →
      acc.1.state.cells.getD k 0 = 0) :
    ∀ k, (acc.1.state.height / 2) * acc.1.state.width ≤ k →
      acc'.1.state.cells.getD k 0 = 0 := by
  rcases advanceCell_shape dirs x y acc acc' h with rfl |
    ⟨hcf, hskip, hlay, hpin, dest, hdd, hdr, hdl, hst⟩
  · exact hbz
  · intro k hk
    obtain ⟨hww, hhh, hlenL, hlenS, hodd, hwh⟩ := hW
    have hb := can_flow_some_bounds acc.1 (x, y) (dirs x y) true hcf
    have hcft := can_flow_true acc.1 x y (dirs x y) hcf
    have hylt : y < acc.1.state.height / 2 := by
      by_contra hge
      push_neg at hge
      have hflat : (acc.1.state.height / 2) * acc.1.state.width
          ≤ acc.1.state.flatIdx (x, y) := row_flat_ge _ x y _ hge
      have h0 : acc.1.state.get 0 (x, y) = 0 := hbz _ hflat
      have h1 := hcft.1
      omega
    have hdest : dest.2 < acc.1.state.height / 2 ∧ dest.1 < acc.1.state.width := by
      rcases hdir : dirs x y with _ | _ | _
      · rw [hdd hdir]
        refine ⟨?_, hb.1⟩
        have hne : y ≠ acc.1.height / 2 - 1 := fun e => hskip hp e hdir
        have hconv : acc.1.height = acc.1.state.height := hhh
        omega
      · rw [hdr hdir]
        have hs := is_solid_at_false acc.1 (x + 1, y) (hcft.2.2.1 hdir)
        exact ⟨hylt, by rw [← hww]; exact hs.1⟩
      · rw [hdl hdir]
        exact ⟨hylt, by omega⟩
    have hsrcIdx : acc.1.state.flatIdx (x, y)
        < (acc.1.state.height / 2) * acc.1.state.width :=
      row_flat_lt _ x y _ hb.1 hylt
    have hdestIdx : acc.1.state.flatIdx dest
        < (acc.1.state.height / 2) * acc.1.state.width :=
      row_flat_lt _ dest.1 dest.2 _ hdest.2 hdest.1
    have hne1 : acc.1.state.flatIdx dest ≠ k := by omega
    have hne2 : acc.1.state.flatIdx (x, y) ≠ k := by omega
    rw [hst]
    rw [show ((acc.1.state.set (x, y) (acc.1.state.get 0 (x, y) - 1)).set dest ((acc.1.state.set (x, y) (acc.1.state.get 0 (x, y) - 1)).get 0 dest + 1)).cells = ((acc.1.state.set (x, y) (acc.1.state.get 0 (x, y) - 1)).cells).set (acc.1.state.flatIdx dest) ((acc.1.state.set (x, y) (acc.1.state.get 0 (x, y) - 1)).get 0 dest + 1) from rfl]
    rw [list_getD_set_ne _ _ _ _ _ hne1]
    rw [show (acc.1.state.set (x, y) (acc.1.state.get 0 (x, y) - 1)).cells = (acc.1.state.cells).set (acc.1.state.flatIdx (x, y)) (acc.1.state.get 0 (x, y) - 1) from rfl]
    rw [list_getD_set_ne _ _ _ _ _ hne2]
    exact hbz k hk

theorem advanceCells_bottom (dirs : Nat → Nat → MoveDirection) (y : Nat) :
    ∀ (xs : List Nat) (acc acc' : Hourglass × Nat), acc.1.WF →
    acc.1.pinched = true →
    Hourglass.advanceCells dirs y xs acc = some acc' →
    (∀ k, (acc.1.state.height / 2) * acc.1.state.width ≤ k →
      acc.1.state.cells.getD k 0 = 0) →
    ∀ k, (acc'.1.state.height / 2) * acc'.1.state.width ≤ k →
      acc'.1.state.cells.getD k 0 = 0 := by
  intro xs
  induction xs with
  | nil =>
    intro acc acc' hW hp h hbz
    cases Option.some.inj h
    exact hbz
  | cons x xs ih =>
    intro acc acc' hW hp h hbz
    rw [advanceCells_cons] at h
    rcases ha : Hourglass.advanceCell dirs x y acc with _ | acc2
    · rw [ha] at h
      exact absurd h (by simp)
    · rw [ha] at h
      have h' : Hourglass.advanceCells dirs y xs acc2 = some acc' := h
      have p1 := advanceCell_preserves dirs x y acc acc2 hW ha
      have hW2 := advanceCell_WF dirs x y acc acc2 hW ha
      have hp2 : acc2.1.pinched = true := p1.2.1.trans hp
      have hbz2 : ∀ k, (acc2.1.state.height / 2) * acc2.1.state.width ≤ k →
          acc2.1.state.cells.getD k 0 = 0 := by
        rw [p1.2.2.2.1, p1.2.2.1]
        exact advanceCell_bottom dirs x y acc acc2 hW hp ha hbz
      exact ih acc2 acc' hW2 hp2 h' hbz2

theorem advanceRows_bottom (dirs : Nat → Nat → MoveDirection) :
    ∀ (ys : List Nat) (acc acc' : Hourglass × Nat), acc.1.WF →
    acc.1.pinched = true →
    Hourglass.advanceRows dirs ys acc = some acc' →
    (∀ k, (acc.1.state.height / 2) * acc.1.state.width ≤ k →
      acc.1.state.cells.getD k 0 = 0) →
    ∀ k, (acc'.1.state.height / 2) * acc'.1.state.width ≤ k →
      acc'.1.state.cells.getD k 0 = 0 := by
  intro ys
  induction ys with
  | nil =>
    intro acc acc' hW hp h hbz
    cases Option.some.inj h
    exact hbz
  | cons y ys ih =>
    intro acc acc' hW hp h hbz
    rw [advanceRows_cons] at h
    rcases ha : Hourglass.advanceCells dirs y (List.range acc.1.width) acc with _ | acc2
    · rw [ha] at h
      exact absurd h (by simp)
    · rw [ha] at h
      have h' : Hourglass.advanceRows dirs ys acc2 = some acc' := h
      have p1 := advanceCells_preserves dirs y (List.range acc.1.width) acc acc2 hW ha
      have hp2 : acc2.1.pinched = true := p1.2.2.1.trans hp
      exact ih acc2 acc' p1.1 hp2 h'
        (advanceCells_bottom dirs y (List.range acc.1.width) acc acc2 hW hp ha hbz)

theorem advanceSeq_bottom :
    ∀ (ds : List (Nat → Nat → MoveDirection)) (hg : Hourglass)
      (r : Hourglass × Nat), hg.WF → hg.pinched = true →
    Hourglass.advanceSeq ds hg = some r →
    (∀ k, (hg.state.height / 2) * hg.state.width ≤ k →
      hg.state.cells.getD k 0 = 0) →
    ∀ k, (r.1.state.height / 2) * r.1.state.width ≤ k →
      r.1.state.cells.getD k 0 = 0 := by
  intro ds
  induction ds with
  | nil =>
    intro hg r hW hp h hbz
    cases Option.some.inj h
    exact hbz
  | cons d ds ih =>
    intro hg r hW hp h hbz
    rw [show Hourglass.advanceSeq (d :: ds) hg
        = (match Hourglass.advance d hg with
           | none => none
           | some (hg', m) =>
             (match Hourglass.advanceSeq ds hg' with
              | none => none
              | some (hg'', ms) => some (hg'', m + ms))) from rfl] at h
    rcases ha : Hourglass.advance d hg with _ | ⟨hg1, m1⟩
    · rw [ha] at h
      exact absurd h (by simp)
    · rw [ha] at h
      have p1 := advance_preserves d hg (hg1, m1) hW ha
      have hb1 : ∀ k, (hg1.state.height / 2) * hg1.state.width ≤ k →
          hg1.state.cells.getD k 0 = 0 :=
        advanceRows_bottom d (List.range hg.height).reverse (hg, 0) (hg1, m1)
          hW hp ha hbz
      have h2 : (match Hourglass.advanceSeq ds hg1 with
                 | none => none
                 | some (hg'', ms) => some (hg'', m1 + ms)) = some r := h
      rcases hb : Hourglass.advanceSeq ds hg1 with _ | ⟨hg2, m2⟩
      · rw [hb] at h2
        exact absurd h2 (by simp)
      · rw [hb] at h2
        have h3 : some ((hg2, m1 + m2) : Hourglass × Nat) = some r := h2
        cases Option.some.inj h3
        exact ih hg1 (hg2, m2) p1.1 (p1.2.2.1.trans hp) hb hb1

theorem mem_range1 (s n m : Nat) : m ∈ List.range' s n ↔ s ≤ m ∧ m < s + n := by
  rw [List.mem_range']
  constructor
  · rintro ⟨i, hi, rfl⟩
    omega
  · intro hm
    exact ⟨m - s, by omega, by omega⟩

theorem count_bottom_zero_iff (hg : Hourglass) (hW : hg.WF) :
    hg.count_bottom_sand = 0 ↔
    (∀ k, (hg.state.height / 2) * hg.state.width ≤ k →
      hg.state.cells.getD k 0 = 0) := by
  obtain ⟨hww, hhh, hlenL, hlenS, hodd, hwh⟩ := hW
  unfold Hourglass.count_bottom_sand Hourglass.count_sand
  constructor
  · intro hsum k hk
    rcases Nat.lt_or_ge k hg.state.cells.length with hkl | hkl
    · have hw0 : 0 < hg.state.width := by
        rw [← hww]
        omega
      have hklen : k < hg.state.width * hg.state.height := by rw [← hlenS]; exact hkl
      have hky : k / hg.state.width < hg.state.height := by
        rw [Nat.div_lt_iff_lt_mul hw0, Nat.mul_comm]
        exact hklen
      have hkx : k % hg.state.width < hg.state.width := Nat.mod_lt _ hw0
      have hyge : hg.state.height / 2 ≤ k / hg.state.width :=
        (Nat.le_div_iff_mul_le hw0).mpr hk
      rw [list_sum_eq_zero] at hsum
      have hymem : k / hg.state.width
          ∈ List.range' (hg.height / 2) (hg.height - hg.height / 2) := by
        rw [mem_range1]
        unfold Hourglass.height
        rw [hhh]
        omega
      have hrow := hsum _ (List.mem_map_of_mem
        (fun y => ((List.range' 0 (hg.width - 0)).map
          (fun x => hg.state.get 0 (x, y))).sum) hymem)
      rw [list_sum_eq_zero] at hrow
      have hxmem : k % hg.state.width ∈ List.range' 0 (hg.width - 0) := by
        rw [mem_range1]
        unfold Hourglass.width
        rw [hww]
        omega
      have hcell := hrow _ (List.mem_map_of_mem
        (fun x => hg.state.get 0 (x, k / hg.state.width)) hxmem)
      have hkeq : (k / hg.state.width) * hg.state.width + k % hg.state.width = k := by
        rw [Nat.mul_comm]
        exact Nat.div_add_mod k hg.state.width
      have hget : hg.state.get 0 (k % hg.state.width, k / hg.state.width)
          = hg.state.cells.getD k 0 := by
        unfold Grid.get Grid.flatIdx
        dsimp only
        rw [hkeq]
      dsimp only at hcell
      rw [hget] at hcell
      exact hcell
    · exact List.getD_eq_default _ _ hkl
  · intro hz
    rw [list_sum_eq_zero]
    intro rs hrs
    rw [List.mem_map] at hrs
    obtain ⟨y, hy, rfl⟩ := hrs
    rw [list_sum_eq_zero]
    intro v hv
    rw [List.mem_map] at hv
    obtain ⟨x, hx, rfl⟩ := hv
    apply hz
    have hyge : hg.state.height / 2 ≤ y := by
      have := (mem_range1 _ _ _).mp hy
      unfold Hourglass.height at this
      rw [hhh] at this
      omega
    exact row_flat_ge _ _ _ _ hyge

/-- C4: while the pinch flag is set, `advance` suppresses Down moves in
row `height / 2 - 1` regardless of legality (the skip in `advanceCell`),
and consequently, for every well-formed pinched hourglass whose
`count_bottom_sand` is 0, every sequence of completed `advance` calls
executed while pinched leaves `count_bottom_sand` at 0 — no grain ever
crosses from the top half into the bottom half.  Settling while pinched
is such a sequence, so after settling from a top-only fill the bottom
count is still 0. -/
theorem C4_pinched_keeps_bottom_empty (hg : Hourglass) (hW : hg.WF)
    (hp : hg.pinched = true) (h0 : hg.count_bottom_sand = 0) :
    ∀ (ds : List (Nat → Nat → MoveDirection)) (r : Hourglass × Nat),
      Hourglass.advanceSeq ds hg = some r → r.1.count_bottom_sand = 0 := by
  intro ds r h
  have hz := (count_bottom_zero_iff hg hW).mp h0
  have hpres := advanceSeq_preserves ds hg r hW h
  have hz' := advanceSeq_bottom ds hg r hW hp h hz
  exact (count_bottom_zero_iff r.1 hpres.1).mpr hz'

/-- Witness for C4: the pinched empty `3 × 5` hourglass after one
all-Down tick still has an empty bottom half. -/
theorem C4_witness : hg35p.count_bottom_sand = 0 :=
  C4_pinched_keeps_bottom_empty hg35p (by decide) (by decide) (by decide)
    [fun _ _ => MoveDirection.down] (hg35p, 0) (by decide)

/-! ### C9: advance only panics through column 0 -/

theorem advanceCell_total (dirs : Nat → Nat → MoveDirection) (x y : Nat)
    (acc : Hourglass × Nat)
    (hx : x < acc.1.state.width) (hy : y < acc.1.state.height)
    (hle : acc.1.state.get 0 (x, y) ≤ MAX_CELL_SAND)
    (h0 : x = 0 → acc.1.state.get 0 (x, y) = 0) :
    ∃ acc', Hourglass.advanceCell dirs x y acc = some acc' := by
  unfold Hourglass.advanceCell
  rw [if_neg (by omega)]
  dsimp only
  by_cases h2 : ((acc.1.pinched && decide (y = acc.1.height / 2 - 1))
      && decide (dirs x y = MoveDirection.down)) = true
  · rw [if_pos h2]
    exact ⟨acc, rfl⟩
  · rw [if_neg h2]
    have hcf : ∃ b, Hourglass.can_flow acc.1 (x, y) (dirs x y) = some b := by
      unfold Hourglass.can_flow
      have hin : acc.1.state.isInBounds (x, y) = true := by
        simp [Grid.isInBounds, hx, hy]
      rw [if_neg (by rw [hin]; simp)]
      dsimp only
      by_cases hs : acc.1.state.get 0 (x, y) < 1
      · rw [if_pos hs]
        exact ⟨false, rfl⟩
      · rw [if_neg hs]
        rcases hdir : dirs x y with _ | _ | _
        · exact ⟨_, rfl⟩
        · exact ⟨_, rfl⟩
        · have hx1 : 1 ≤ x := by
            rcases Nat.eq_zero_or_pos x with rfl | hpos
            · have := h0 rfl
              omega
            · exact hpos
          by_cases hsb : acc.1.is_solid_at (x, y + 1) = false
          · rw [if_pos hsb]
            exact ⟨false, rfl⟩
          · rw [if_neg hsb]
            rw [show csub x 1 = some (x - 1) from by unfold csub; rw [if_pos hx1]]
            exact ⟨_, rfl⟩
    obtain ⟨b, hb⟩ := hcf
    rw [hb]
    cases b
    · exact ⟨acc, rfl⟩
    · exact ⟨_, rfl⟩

theorem advanceCell_cellwise (dirs : Nat → Nat → MoveDirection) (x y : Nat)
    (acc acc' : Hourglass × Nat) (hW : acc.1.WF)
    (h : Hourglass.advanceCell dirs x y acc = some acc') (q : Nat × Nat)
    (hq1 : q.1 < acc.1.state.width) (hq2 : q.2 < acc.1.state.height) :
    acc'.1.state.get 0 q = acc.1.state.get 0 q ∨
    (q = (x, y) ∧ acc'.1.state.get 0 q = acc.1.state.get 0 q - 1) ∨
    (q ≠ (x, y) ∧ (q.2 = y ∨ q.2 = y + 1) ∧
      acc.1.state.get 0 q < MAX_CELL_SAND ∧
      acc'.1.state.get 0 q = acc.1.state.get 0 q + 1) := by
  rcases advanceCell_shape dirs x y acc acc' h with rfl |
    ⟨hcf, hskip, hlay, hpin, dest, hdd, hdr, hdl, hst⟩
  · exact Or.inl rfl
  · obtain ⟨hww, hhh, hlenL, hlenS, hodd, hwh⟩ := hW
    have hb := can_flow_some_bounds acc.1 (x, y) (dirs x y) true hcf
    have hcft := can_flow_true acc.1 x y (dirs x y) hcf
    have hdest : dest.1 < acc.1.state.width ∧ dest.2 < acc.1.state.height
        ∧ dest ≠ (x, y) ∧ (dest.2 = y ∨ dest.2 = y + 1)
        ∧ acc.1.state.get 0 dest < MAX_CELL_SAND := by
      rcases hdir : dirs x y with _ | _ | _
      · rw [hdd hdir]
        have hs := is_solid_at_false acc.1 (x, y + 1) (hcft.2.1 hdir)
        exact ⟨by rw [← hww]; exact hs.1, by rw [← hhh]; exact hs.2.1,
          by simp, Or.inr rfl, hs.2.2.2⟩
      · rw [hdr hdir]
        have hs := is_solid_at_false acc.1 (x + 1, y) (hcft.2.2.1 hdir)
        exact ⟨by rw [← hww]; exact hs.1, by rw [← hhh]; exact hs.2.1,
          by simp, Or.inl rfl, hs.2.2.2⟩
      · rw [hdl hdir]
        obtain ⟨hx1, hsl⟩ := hcft.2.2.2 hdir
        have hs := is_solid_at_false acc.1 (x - 1, y) hsl
        refine ⟨by rw [← hww]; exact hs.1, by rw [← hhh]; exact hs.2.1,
          ?_, Or.inl rfl, hs.2.2.2⟩
        intro e
        rw [Prod.mk.injEq] at e
        omega
    have hsne : acc.1.state.flatIdx (x, y) ≠ acc.1.state.flatIdx dest :=
      Grid.flatIdx_inj _ _ _ hb.1 hdest.1 (Ne.symm hdest.2.2.1)
    have hsI : acc.1.state.flatIdx (x, y) < acc.1.state.cells.length :=
      Grid.flatIdx_lt _ _ hb.1 hb.2 hlenS
    have hdI : acc.1.state.flatIdx dest < acc.1.state.cells.length :=
      Grid.flatIdx_lt _ _ hdest.1 hdest.2.1 hlenS
    have hrep : ∀ q' : Nat × Nat, acc'.1.state.get 0 q' = ((acc.1.state.cells.set (acc.1.state.flatIdx (x, y)) (acc.1.state.get 0 (x, y) - 1)).set (acc.1.state.flatIdx dest) ((acc.1.state.cells.set (acc.1.state.flatIdx (x, y)) (acc.1.state.get 0 (x, y) - 1)).getD (acc.1.state.flatIdx dest) 0 + 1)).getD (acc.1.state.flatIdx q') 0 := by
      intro q'
      rw [hst]
      rfl
    have hs1d : (acc.1.state.cells.set (acc.1.state.flatIdx (x, y)) (acc.1.state.get 0 (x, y) - 1)).getD (acc.1.state.flatIdx dest) 0 = acc.1.state.get 0 dest := list_getD_set_ne _ _ _ _ _ hsne
    by_cases hqs : q = (x, y)
    · right
      left
      refine ⟨hqs, ?_⟩
      rw [hrep q, hqs]
      rw [list_getD_set_ne _ _ _ _ _ (fun e => hsne (Eq.symm e))]
      rw [list_getD_set_self _ _ _ _ hsI]
    · by_cases hqd : q = dest
      · right
        right
        refine ⟨hqs, by rw [hqd]; exact hdest.2.2.2.1,
          by rw [hqd]; exact hdest.2.2.2.2, ?_⟩
        rw [hrep q, hqd]
        rw [list_getD_set_self _ _ _ _ (by rw [List.length_set]; exact hdI)]
        rw [hs1d]
      · left
        have hqI : acc.1.state.flatIdx dest ≠ acc.1.state.flatIdx q :=
          Grid.flatIdx_inj _ _ _ hdest.1 hq1 (Ne.symm hqd)
        have hqI2 : acc.1.state.flatIdx (x, y) ≠ acc.1.state.flatIdx q :=
          Grid.flatIdx_inj _ _ _ hb.1 hq1 (Ne.symm hqs)
        rw [hrep q]
        rw [list_getD_set_ne _ _ _ _ _ hqI]
        rw [list_getD_set_ne _ _ _ _ _ hqI2]
        rfl

theorem advanceCells_total (dirs : Nat → Nat → MoveDirection) (y : Nat) :
    ∀ (xs : List Nat) (acc : Hourglass × Nat), acc.1.WF →
    List.Pairwise (· < ·) xs →
    (∀ x ∈ xs, x < acc.1.state.width) →
    y < acc.1.state.height →
    (∀ x ∈ xs, acc.1.state.get 0 (x, y) ≤ MAX_CELL_SAND) →
    (0 ∈ xs → acc.1.state.get 0 (0, y) = 0) →
    ∃ acc', Hourglass.advanceCells dirs y xs acc = some acc' ∧
      (∀ q : Nat × Nat, q.1 < acc.1.state.width → q.2 < acc.1.state.height →
        q.2 < y → acc'.1.state.get 0 q = acc.1.state.get 0 q) := by
  intro xs
  induction xs with
  | nil =>
    intro acc hW hpw hxb hy hsb h0
    exact ⟨acc, rfl, fun q _ _ _ => rfl⟩
  | cons x xs ih =>
    intro acc hW hpw hxb hy hsb h0
    have hxmem : x < acc.1.state.width := hxb x (List.mem_cons_self x xs)
    obtain ⟨hlt, hpw'⟩ := List.pairwise_cons.mp hpw
    obtain ⟨acc2, ha⟩ := advanceCell_total dirs x y acc hxmem hy
      (hsb x (List.mem_cons_self x xs))
      (fun hx0 => by
        rw [hx0]
        exact h0 (by rw [← hx0]; exact List.mem_cons_self x xs))
    have p1 := advanceCell_preserves dirs x y acc acc2 hW ha
    have hW2 := advanceCell_WF dirs x y acc acc2 hW ha
    have hcw := advanceCell_cellwise dirs x y acc acc2 hW ha
    have hstep : ∀ x' ∈ xs, acc2.1.state.get 0 (x', y) ≤ MAX_CELL_SAND := by
      intro x' hx'
      rcases hcw (x', y) (hxb x' (List.mem_cons_of_mem x hx')) hy with
        heq | ⟨hq, _⟩ | ⟨_, _, hlt2, heq⟩
      · rw [heq]
        exact hsb x' (List.mem_cons_of_mem x hx')
      · exfalso
        rw [Prod.mk.injEq] at hq
        have := hlt x' hx'
        omega
      · omega
    obtain ⟨acc', hrun, hlow⟩ := ih acc2 hW2 hpw'
      (fun x' hx' => by rw [p1.2.2.1]; exact hxb x' (List.mem_cons_of_mem x hx'))
      (by rw [p1.2.2.2.1]; exact hy)
      hstep
      (fun h0' => absurd (hlt 0 h0') (Nat.not_lt_zero x))
    refine ⟨acc', ?_, ?_⟩
    · rw [advanceCells_cons, ha]
      exact hrun
    · intro q hqw hqh hqy
      have h2 : acc'.1.state.get 0 q = acc2.1.state.get 0 q :=
        hlow q (by rw [p1.2.2.1]; exact hqw) (by rw [p1.2.2.2.1]; exact hqh) hqy
      rw [h2]
      rcases hcw q hqw hqh with heq | ⟨hq, _⟩ | ⟨_, hrow, _, _⟩
      · exact heq
      · exfalso
        rw [Prod.mk.injEq] at hq
        omega
      · exfalso
        omega

theorem advanceRows_total (dirs : Nat → Nat → MoveDirection) :
    ∀ (ys : List Nat) (acc : Hourglass × Nat), acc.1.WF →
    List.Pairwise (· > ·) ys →
    (∀ y' ∈ ys, y' < acc.1.state.height) →
    (∀ y' ∈ ys, ∀ x, x < acc.1.state.width →
      acc.1.state.get 0 (x, y') ≤ MAX_CELL_SAND) →
    (∀ y' ∈ ys, acc.1.state.get 0 (0, y') = 0) →
    ∃ acc', Hourglass.advanceRows dirs ys acc = some acc' := by
  intro ys
  induction ys with
  | nil =>
    intro acc hW hpw hyb hsb h0
    exact ⟨acc, rfl⟩
  | cons y ys ih =>
    intro acc hW hpw hyb hsb h0
    obtain ⟨hlt, hpw'⟩ := List.pairwise_cons.mp hpw
    have hymem := hyb y (List.mem_cons_self y ys)
    have hwidth : ∀ x ∈ List.range acc.1.width, x < acc.1.state.width := by
      intro x hx
      have := List.mem_range.mp hx
      unfold Hourglass.width at this
      rw [hW.1] at this
      exact this
    obtain ⟨acc2, hrun2, hlow⟩ := advanceCells_total dirs y (List.range acc.1.width)
      acc hW (List.pairwise_lt_range _) hwidth hymem
      (fun x hx => hsb y (List.mem_cons_self y ys) x (hwidth x hx))
      (fun _ => h0 y (List.mem_cons_self y ys))
    have p1 := advanceCells_preserves dirs y (List.range acc.1.width) acc acc2 hW hrun2
    obtain ⟨acc', hrun⟩ := ih acc2 p1.1 hpw'
      (fun y' hy' => by rw [p1.2.2.2.2.1]; exact hyb y' (List.mem_cons_of_mem y hy'))
      (fun y' hy' x hx => by
        rw [hlow (x, y') (by rw [← p1.2.2.2.1]; exact hx)
          (hyb y' (List.mem_cons_of_mem y hy'))
          (hlt y' hy')]
        exact hsb y' (List.mem_cons_of_mem y hy') x (by rw [← p1.2.2.2.1]; exact hx))
      (fun y' hy' => by
        have hw0 : 0 < acc.1.state.width := by
          have := hW.2.2.2.2.1
          rw [hW.1] at this
          omega
        rw [hlow (0, y') hw0
          (hyb y' (List.mem_cons_of_mem y hy'))
          (hlt y' hy')]
        exact h0 y' (List.mem_cons_of_mem y hy'))
    refine ⟨acc', ?_⟩
    rw [advanceRows_cons, hrun2]
    exact hrun

/-- C9: `advance` performs no out-of-range coordinate arithmetic as long
as no cell of column 0 holds a grain: for every well-formed hourglass
satisfying the cell bound whose column 0 is sand-free, `advance`
completes normally for every draw.  Conversely, on the state `hg35w` —
reached from a fresh hourglass by `try_place_sand` at `(0, 1)`, a cell
with solid support below — a Left draw makes `can_flow` evaluate
`pos.0 - 1` with `pos.0 = 0`, a fatal `usize` underflow (`none`), and
the enclosing `advance` call aborts instead of rejecting the move. -/
theorem C9_column_zero_underflow :
    (∀ (hg : Hourglass) (dirs : Nat → Nat → MoveDirection),
      hg.WF → hg.cellBound → hg.col0Free →
      (Hourglass.advance dirs hg).isSome = true) ∧
    (Hourglass.can_flow hg35w (0, 1) MoveDirection.left = none ∧
     Hourglass.advance (fun _ _ => MoveDirection.left) hg35w = none) := by
  refine ⟨?_, by decide, by decide⟩
  intro hg dirs hW hB h0
  have hmemh : ∀ y' ∈ (List.range hg.height).reverse, y' < hg.state.height := by
    intro y' hy'
    have hyr : y' < hg.height := List.mem_range.mp (List.mem_reverse.mp hy')
    unfold Hourglass.height at hyr
    rw [hW.2.1] at hyr
    exact hyr
  have hbound : ∀ y' ∈ (List.range hg.height).reverse, ∀ x, x < hg.state.width →
      hg.state.get 0 (x, y') ≤ MAX_CELL_SAND := by
    intro y' hy' x hx
    have hidx : hg.state.flatIdx (x, y') < hg.state.cells.length :=
      Grid.flatIdx_lt _ _ hx (hmemh y' hy') hW.2.2.2.1
    unfold Grid.get
    rw [List.getD_eq_getElem _ _ hidx]
    exact hB _ (List.getElem_mem _)
  obtain ⟨r, hr⟩ := advanceRows_total dirs (List.range hg.height).reverse (hg, 0)
    hW (List.pairwise_reverse.mpr (List.pairwise_lt_range _)) hmemh hbound
    (fun y' hy' => h0 y' (List.mem_range.mp (List.mem_reverse.mp hy')))
  unfold Hourglass.advance
  rw [hr]
  rfl

/-- Witness for C9 on the fresh `3 × 5` hourglass (column 0 sand-free):
an all-Down tick completes. -/
theorem C9_witness :
    (Hourglass.advance (fun _ _ => MoveDirection.down) hg35).isSome = true :=
  C9_column_zero_underflow.1 hg35 (fun _ _ => MoveDirection.down)
    (by decide) (by decide) (by decide)

/-! ### C2: the flow rule against the specification's wording -/

theorem solidAtZ_nat (hg : Hourglass) (a b : Nat) :
    solidAtZ hg (a : Int) (b : Int) = hg.is_solid_at (a, b) := by
  unfold solidAtZ
  by_cases hin : a < hg.width ∧ b < hg.height
  · rw [if_pos ⟨Int.natCast_nonneg a, by exact_mod_cast hin.1,
      Int.natCast_nonneg b, by exact_mod_cast hin.2⟩]
    simp
  · rw [if_neg (by
      intro hc
      apply hin
      constructor
      · exact_mod_cast hc.2.1
      · exact_mod_cast hc.2.2.2)]
    unfold Hourglass.is_solid_at
    rw [if_pos (by
      simp only [Grid.isInBounds, Bool.and_eq_false_iff, decide_eq_false_iff_not]
      unfold Hourglass.width Hourglass.height at hin
      omega)]

theorem sandAtZ_nat (hg : Hourglass) (a b : Nat)
    (ha : a < hg.width) (hb : b < hg.height) :
    sandAtZ hg (a : Int) (b : Int) = hg.state.get 0 (a, b) := by
  unfold sandAtZ
  rw [if_pos ⟨Int.natCast_nonneg a, by exact_mod_cast ha,
    Int.natCast_nonneg b, by exact_mod_cast hb⟩]
  simp

/-- Counterexample to C2 as stated: on `hg35w` (a grain placed at
`(0, 1)`, which has solid support below), a Left draw makes `can_flow`
underflow (`none`) instead of returning the value `false` that the
spec's rule assigns (the out-of-grid lateral neighbour is solid), so the
code's flow predicate does not equal the spec's rule at this input. -/
theorem C2_cex :
    Hourglass.can_flow hg35w (0, 1) MoveDirection.left
      ≠ some (specCanFlow hg35w (0, 1) MoveDirection.left) ∧
    Hourglass.can_flow hg35w (0, 1) MoveDirection.left = none ∧
    specCanFlow hg35w (0, 1) MoveDirection.left = false := by
  refine ⟨?_, by decide, by decide⟩
  intro hc
  rw [show Hourglass.can_flow hg35w (0, 1) MoveDirection.left = none from by decide] at hc
  exact Option.noConfusion hc

/-- C2 (amended): whenever `can_flow` returns a value (no underflow), the
value equals the rule exactly as the specification words it
(`specCanFlow`, with out-of-grid neighbours solid per §4.3); the only
divergence is the Left evaluation at column 0 with a grain present and
solid support, where the code panics instead of answering `false`. -/
theorem C2_flow_rule_refines_spec (hg : Hourglass) (pos : Nat × Nat)
    (dir : MoveDirection) (b : Bool) (hW : hg.WF)
    (h : hg.can_flow pos dir = some b) :
    b = specCanFlow hg pos dir := by
  obtain ⟨hww, hhh, hlenL, hlenS, hodd, hwh⟩ := hW
  have hbnd := can_flow_some_bounds hg pos dir b h
  have hxw : pos.1 < hg.width := by
    unfold Hourglass.width
    rw [hww]
    exact hbnd.1
  have hyh : pos.2 < hg.height := by
    unfold Hourglass.height
    rw [hhh]
    exact hbnd.2
  have eB : solidAtZ hg (pos.1 : Int) ((pos.2 : Int) + 1)
      = hg.is_solid_at (pos.1, pos.2 + 1) := by
    rw [show ((pos.2 : Int) + 1) = ((pos.2 + 1 : Nat) : Int) from by push_cast; ring]
    exact solidAtZ_nat hg pos.1 (pos.2 + 1)
  have eR : solidAtZ hg ((pos.1 : Int) + 1) (pos.2 : Int)
      = hg.is_solid_at (pos.1 + 1, pos.2) := by
    rw [show ((pos.1 : Int) + 1) = ((pos.1 + 1 : Nat) : Int) from by push_cast; ring]
    exact solidAtZ_nat hg (pos.1 + 1) pos.2
  have eRD : solidAtZ hg ((pos.1 : Int) + 1) ((pos.2 : Int) + 1)
      = hg.is_solid_at (pos.1 + 1, pos.2 + 1) := by
    rw [show ((pos.1 : Int) + 1) = ((pos.1 + 1 : Nat) : Int) from by push_cast; ring,
      show ((pos.2 : Int) + 1) = ((pos.2 + 1 : Nat) : Int) from by push_cast; ring]
    exact solidAtZ_nat hg (pos.1 + 1) (pos.2 + 1)
  unfold Hourglass.can_flow at h
  rw [if_neg (by simp [Grid.isInBounds, hbnd.1, hbnd.2])] at h
  dsimp only at h
  unfold specCanFlow
  dsimp only
  by_cases hs : hg.state.get 0 pos < 1
  · rw [if_pos hs] at h
    rw [if_pos (by omega)]
    exact (Option.some.inj h).symm
  · rw [if_neg hs] at h
    rw [if_neg (by omega)]
    cases dir with
    | down =>
      rw [(Option.some.inj h).symm]
      have e1 : decide (pos.2 < hg.height - 1) = decide (pos.2 ≠ hg.height - 1) :=
        decide_eq_decide.mpr (by omega)
      rw [e1, eB]
    | right =>
      rw [(Option.some.inj h).symm]
      rw [eB, eR, eRD]
      cases hsr : hg.is_solid_at (pos.1 + 1, pos.2) with
      | true => simp
      | false =>
        have hbp := is_solid_at_false hg (pos.1 + 1, pos.2) hsr
        have eSand : sandAtZ hg ((pos.1 : Int) + 1) (pos.2 : Int)
            = hg.state.get 0 (pos.1 + 1, pos.2) := by
          rw [show ((pos.1 : Int) + 1) = ((pos.1 + 1 : Nat) : Int) from by push_cast; ring]
          exact sandAtZ_nat hg (pos.1 + 1) pos.2 hbp.1 hyh
        rw [eSand]
    | left =>
      cases hsb : hg.is_solid_at (pos.1, pos.2 + 1) with
      | false =>
        rw [hsb] at h
        rw [if_pos rfl] at h
        rw [(Option.some.inj h).symm, eB, hsb]
        simp
      | true =>
        rw [hsb] at h
        rw [if_neg (by simp)] at h
        rcases Nat.eq_zero_or_pos pos.1 with hx0 | hx1
        · rw [hx0] at h
          rw [show csub 0 1 = none from by unfold csub; rw [if_neg (by omega)]] at h
          exact absurd h (by simp)
        · rw [show csub pos.1 1 = some (pos.1 - 1) from by
            unfold csub; rw [if_pos (show 1 ≤ pos.1 from hx1)]] at h
          have eL : solidAtZ hg ((pos.1 : Int) - 1) (pos.2 : Int)
              = hg.is_solid_at (pos.1 - 1, pos.2) := by
            rw [show ((pos.1 : Int) - 1) = ((pos.1 - 1 : Nat) : Int) from by
              rw [Nat.cast_sub hx1]; push_cast; ring]
            exact solidAtZ_nat hg (pos.1 - 1) pos.2
          have eLD : solidAtZ hg ((pos.1 : Int) - 1) ((pos.2 : Int) + 1)
              = hg.is_solid_at (pos.1 - 1, pos.2 + 1) := by
            rw [show ((pos.1 : Int) - 1) = ((pos.1 - 1 : Nat) : Int) from by
              rw [Nat.cast_sub hx1]; push_cast; ring,
              show ((pos.2 : Int) + 1) = ((pos.2 + 1 : Nat) : Int) from by push_cast; ring]
            exact solidAtZ_nat hg (pos.1 - 1) (pos.2 + 1)
          rw [(Option.some.inj h).symm, eB, hsb, eL, eLD]
          cases hsl : hg.is_solid_at (pos.1 - 1, pos.2) with
          | true => simp
          | false =>
            have hbp := is_solid_at_false hg (pos.1 - 1, pos.2) hsl
            have eSand : sandAtZ hg ((pos.1 : Int) - 1) (pos.2 : Int)
                = hg.state.get 0 (pos.1 - 1, pos.2) := by
              rw [show ((pos.1 : Int) - 1) = ((pos.1 - 1 : Nat) : Int) from by
                rw [Nat.cast_sub hx1]; push_cast; ring]
              exact sandAtZ_nat hg (pos.1 - 1) pos.2 hbp.1 hyh
            rw [eSand]
            simp

/-- Witness for C2: a Down draw on the grain at `(1, 1)` of `hg35g` is
legal in the code and under the spec's rule alike. -/
theorem C2_witness : true = specCanFlow hg35g (1, 1) MoveDirection.down :=
  C2_flow_rule_refines_spec hg35g (1, 1) MoveDirection.down true
    (by decide) (by decide)

/-! ### C6: symmetry of the generated layout -/

theorem mem_equalsWrites (w h a b : Nat) :
    ((a, b) ∈ (equalsWrites w h).map Prod.fst) ↔ (a < w ∧ (b = 0 ∨ b = h - 1)) := by
  simp only [equalsWrites, List.map_flatMap, List.mem_flatMap, List.mem_range,
    List.map_cons, List.map_nil, List.mem_cons, List.not_mem_nil, or_false,
    Prod.mk.injEq]
  constructor
  · rintro ⟨i, hi, hc⟩
    omega
  · intro hc
    exact ⟨a, hc.1, by omega⟩

theorem mem_pipeWrites (w h st a b : Nat) :
    ((a, b) ∈ (pipeWrites w h st).map Prod.fst) ↔
      (∃ i, 1 ≤ i ∧ i < st ∧
        ((a = 0 ∧ b = i) ∨ (a = w - 1 ∧ b = i) ∨
         (a = 0 ∧ b = h - 1 - i) ∨ (a = w - 1 ∧ b = h - 1 - i))) := by
  simp only [pipeWrites, List.map_flatMap, List.mem_flatMap, mem_range1,
    List.map_cons, List.map_nil, List.mem_cons, List.not_mem_nil, or_false,
    Prod.mk.injEq]
  constructor
  · rintro ⟨i, hi, hc⟩
    exact ⟨i, by omega, by omega, by omega⟩
  · rintro ⟨i, h1, h2, hc⟩
    exact ⟨i, by omega, by omega⟩

theorem mem_slashWrites (w h sl st a b : Nat) :
    ((a, b) ∈ (slashWrites w h sl st).map Prod.fst) ↔
      (∃ i, i < sl ∧
        ((a = i ∧ b = st + i) ∨
         (a = w - 1 - i ∧ b = st + i) ∨
         (a = sl - 1 - i ∧ b = h - st - sl + i) ∨
         (a = sl + 1 + i ∧ b = h - st - sl + i))) := by
  simp only [slashWrites, List.map_flatMap, List.mem_flatMap, List.mem_range,
    List.map_cons, List.map_nil, List.mem_cons, List.not_mem_nil, or_false,
    Prod.mk.injEq]

theorem mem_layoutWrites (w h : Nat) (ws : List ((Nat × Nat) × Char))
    (hws : layoutWrites w h = some ws) (a b : Nat) :
    ((a, b) ∈ ws.map Prod.fst) ↔
      ((a < w ∧ (b = 0 ∨ b = h - 1)) ∨
       (∃ i, 1 ≤ i ∧ i < h / 2 - w / 2 ∧
         ((a = 0 ∧ b = i) ∨ (a = w - 1 ∧ b = i) ∨
          (a = 0 ∧ b = h - 1 - i) ∨ (a = w - 1 ∧ b = h - 1 - i))) ∨
       (∃ i, i < w / 2 ∧
         ((a = i ∧ b = h / 2 - w / 2 + i) ∨
          (a = w - 1 - i ∧ b = h / 2 - w / 2 + i) ∨
          (a = w / 2 - 1 - i ∧ b = h - (h / 2 - w / 2) - w / 2 + i) ∨
          (a = w / 2 + 1 + i ∧ b = h - (h / 2 - w / 2) - w / 2 + i))) ∨
       (h % 2 = 1 ∧ 1 ≤ w / 2 ∧ b = h / 2 ∧ (a = w / 2 - 1 ∨ a = w / 2 + 1))) := by
  unfold layoutWrites at hws
  dsimp only at hws
  by_cases hh : h % 2 = 1
  · rw [if_pos hh] at hws
    rcases hcs : csub (w / 2) 1 with _ | aa
    · rw [hcs] at hws
      exact absurd hws (by simp)
    · rw [hcs] at hws
      have haa : 1 ≤ w / 2 ∧ aa = w / 2 - 1 := by
        unfold csub at hcs
        by_cases hle : 1 ≤ w / 2
        · rw [if_pos hle] at hcs
          exact ⟨hle, (Option.some.inj hcs).symm⟩
        · rw [if_neg hle] at hcs
          exact absurd hcs (by simp)
      cases Option.some.inj hws
      simp only [List.map_append, List.mem_append, mem_equalsWrites,
        mem_pipeWrites, mem_slashWrites, List.map_cons, List.map_nil,
        List.mem_cons, List.not_mem_nil, or_false, Prod.mk.injEq]
      constructor
      · rintro (((hE | hP) | hS) | hM)
        · exact Or.inl hE
        · exact Or.inr (Or.inl hP)
        · exact Or.inr (Or.inr (Or.inl hS))
        · refine Or.inr (Or.inr (Or.inr ⟨hh, haa.1, ?_⟩))
          omega
      · rintro (hE | hP | hS | hM)
        · exact Or.inl (Or.inl (Or.inl hE))
        · exact Or.inl (Or.inl (Or.inr hP))
        · exact Or.inl (Or.inr hS)
        · refine Or.inr ?_
          omega
  · rw [if_neg hh] at hws
    cases Option.some.inj hws
    simp only [List.map_append, List.mem_append, mem_equalsWrites,
      mem_pipeWrites, mem_slashWrites]
    constructor
    · rintro ((hE | hP) | hS)
      · exact Or.inl hE
      · exact Or.inr (Or.inl hP)
      · exact Or.inr (Or.inr (Or.inl hS))
    · rintro (hE | hP | hS | hM)
      · exact Or.inl (Or.inl hE)
      · exact Or.inl (Or.inr hP)
      · exact Or.inr hS
      · exact absurd hM.1 hh

theorem isWallAt_writeAll (ws : List ((Nat × Nat) × Char)) (g : Grid LayoutCell)
    (p : Nat × Nat)
    (hlen : g.cells.length = g.width * g.height)
    (hp1 : p.1 < g.width) (hp2 : p.2 < g.height)
    (hws : ∀ q ∈ ws.map Prod.fst, q.1 < g.width ∧ q.2 < g.height) :
    isWallAt (writeAll ws g) p = (isWallAt g p || decide (p ∈ ws.map Prod.fst)) := by
  induction ws generalizing g with
  | nil => simp [writeAll]
  | cons e t ih =>
    have he : e.1.1 < g.width ∧ e.1.2 < g.height := hws e.1 (by simp)
    have hstep : writeAll (e :: t) g = writeAll t (g.set e.1 (LayoutCell.wall e.2)) := rfl
    rw [hstep]
    have hlen' : (g.set e.1 (LayoutCell.wall e.2)).cells.length =
        (g.set e.1 (LayoutCell.wall e.2)).width * (g.set e.1 (LayoutCell.wall e.2)).height := by
      rw [Grid.length_set, Grid.width_set, Grid.height_set]; exact hlen
    have hws' : ∀ q ∈ t.map Prod.fst,
        q.1 < (g.set e.1 (LayoutCell.wall e.2)).width ∧
        q.2 < (g.set e.1 (LayoutCell.wall e.2)).height := by
      intro q hq
      exact hws q (by simp only [List.map_cons, List.mem_cons]; exact Or.inr hq)
    rw [ih (g.set e.1 (LayoutCell.wall e.2)) hlen' hp1 hp2 hws']
    by_cases hpe : p = e.1
    · have hw : isWallAt (g.set e.1 (LayoutCell.wall e.2)) p = true := by
        unfold isWallAt
        rw [hpe, Grid.get_set_self _ _ _ _ (Grid.flatIdx_lt g e.1 he.1 he.2 hlen)]
      rw [hw]
      simp [hpe]
    · have hw : isWallAt (g.set e.1 (LayoutCell.wall e.2)) p = isWallAt g p := by
        unfold isWallAt
        rw [Grid.get_set_ne _ _ _ _ _
          (Grid.flatIdx_inj g e.1 p he.1 hp1 (fun hcontra => hpe hcontra.symm))]
      rw [hw]
      simp only [List.map_cons, List.mem_cons]
      congr 1
      simp [hpe]

theorem layoutWrites_inbounds (w h : Nat) (ws : List ((Nat × Nat) × Char))
    (hws : layoutWrites w h = some ws) (hw : w % 2 = 1) (hwh : w < h) :
    ∀ q ∈ ws.map Prod.fst, q.1 < w ∧ q.2 < h := by
  intro q hq
  obtain ⟨a, b⟩ := q
  rw [mem_layoutWrites w h ws hws a b] at hq
  show a < w ∧ b < h
  rcases hq with ⟨h1, h2⟩ | ⟨i, h1, h2, hc⟩ | ⟨i, hi, hc⟩ | ⟨h1, h2, h3, h4⟩
  all_goals omega

set_option maxHeartbeats 1600000 in
theorem layoutWrites_mem_mirror (w h : Nat) (ws : List ((Nat × Nat) × Char))
    (hws : layoutWrites w h = some ws) (hw : w % 2 = 1) (a b : Nat)
    (hq : (a, b) ∈ ws.map Prod.fst) : (w - 1 - a, b) ∈ ws.map Prod.fst := by
  rw [mem_layoutWrites w h ws hws] at hq ⊢
  rcases hq with ⟨h1, h2⟩ | ⟨i, h1, h2, hc⟩ | ⟨i, hi, hc⟩ | ⟨h1, h2, h3, h4⟩
  · exact Or.inl (by omega)
  · exact Or.inr (Or.inl ⟨i, h1, h2, by omega⟩)
  · exact Or.inr (Or.inr (Or.inl ⟨i, hi, by omega⟩))
  · exact Or.inr (Or.inr (Or.inr (by omega)))

set_option maxHeartbeats 1600000 in
theorem layoutWrites_mem_rotate (w h : Nat) (ws : List ((Nat × Nat) × Char))
    (hws : layoutWrites w h = some ws) (hw : w % 2 = 1) (hwh : w < h) (a b : Nat)
    (hq : (a, b) ∈ ws.map Prod.fst) : (w - 1 - a, h - 1 - b) ∈ ws.map Prod.fst := by
  rw [mem_layoutWrites w h ws hws] at hq ⊢
  rcases hq with ⟨h1, h2⟩ | ⟨i, h1, h2, hc⟩ | ⟨i, hi, hc⟩ | ⟨h1, h2, h3, h4⟩
  · exact Or.inl (by omega)
  · exact Or.inr (Or.inl ⟨i, h1, h2, by omega⟩)
  · exact Or.inr (Or.inr (Or.inl ⟨w / 2 - 1 - i, by omega, by omega⟩))
  · exact Or.inr (Or.inr (Or.inr (by omega)))

/-- C6: whenever construction succeeds (odd width, height more than width,
and `populate_layout` completes), the generated layout is exactly
mirror-symmetric left-right and point-symmetric top-bottom — a position
holds a wall iff its left-right mirror image `(w-1-x, y)` does, and iff its
180-degree-rotated image `(w-1-x, h-1-y)` does — and every position not
visited by a layout write is still `Empty`. -/
theorem C6_layout_symmetry (w h : Nat) (hg : Hourglass)
    (hnew : Hourglass.new w h = some hg) :
    (∀ x y, x < w → y < h →
      (isWallAt hg.layout (x, y) = isWallAt hg.layout (w - 1 - x, y) ∧
       isWallAt hg.layout (x, y) = isWallAt hg.layout (w - 1 - x, h - 1 - y))) ∧
    ∀ ws, layoutWrites w h = some ws →
      ∀ x y, x < w → y < h → (x, y) ∉ ws.map Prod.fst →
        hg.layout.get LayoutCell.empty (x, y) = LayoutCell.empty := by
  obtain ⟨hw, hwh, hstate, hpinch, ws0, hws0, hlay⟩ := new_elim w h hg hnew
  have hg0len : (Grid.new w h LayoutCell.empty).cells.length =
      (Grid.new w h LayoutCell.empty).width * (Grid.new w h LayoutCell.empty).height := by
    simp [Grid.new]
  have hinb := layoutWrites_inbounds w h ws0 hws0 hw hwh
  have hbase : ∀ p : Nat × Nat, isWallAt (Grid.new w h LayoutCell.empty) p = false := by
    intro p
    unfold isWallAt
    rw [Grid.get_new]
  have hwall : ∀ x y, x < w → y < h →
      isWallAt hg.layout (x, y) = decide ((x, y) ∈ ws0.map Prod.fst) := by
    intro x y hx hy
    rw [hlay, isWallAt_writeAll ws0 _ (x, y) hg0len hx hy hinb, hbase, Bool.false_or]
  refine ⟨?_, ?_⟩
  · intro x y hx hy
    have hx' : w - 1 - x < w := by omega
    have hy' : h - 1 - y < h := by omega
    refine ⟨?_, ?_⟩
    · rw [hwall x y hx hy, hwall _ y hx' hy, decide_eq_decide]
      constructor
      · exact layoutWrites_mem_mirror w h ws0 hws0 hw x y
      · intro hmem
        have h2 := layoutWrites_mem_mirror w h ws0 hws0 hw (w - 1 - x) y hmem
        rwa [show w - 1 - (w - 1 - x) = x by omega] at h2
    · rw [hwall x y hx hy, hwall _ _ hx' hy', decide_eq_decide]
      constructor
      · exact layoutWrites_mem_rotate w h ws0 hws0 hw hwh x y
      · intro hmem
        have h2 := layoutWrites_mem_rotate w h ws0 hws0 hw hwh (w - 1 - x) (h - 1 - y) hmem
        rwa [show w - 1 - (w - 1 - x) = x by omega,
             show h - 1 - (h - 1 - y) = y by omega] at h2
  · intro ws hws x y hx hy hnot
    have hwseq : ws0 = ws := Option.some.inj (hws0.symm.trans hws)
    rw [← hwseq] at hnot
    have hfalse : isWallAt hg.layout (x, y) = false := by
      rw [hwall x y hx hy]
      simpa using hnot
    unfold isWallAt at hfalse
    cases hget : hg.layout.get LayoutCell.empty (x, y) with
    | empty => rfl
    | wall c => rw [hget] at hfalse; simp at hfalse

/-- Witness for C6 at the concrete 3×5 hourglass. -/
theorem C6_witness :
    Hourglass.new 3 5 = some hg35 ∧
    isWallAt hg35.layout (0, 1) = isWallAt hg35.layout (2, 1) ∧
    isWallAt hg35.layout (0, 1) = isWallAt hg35.layout (2, 3) := by
  have hnew : Hourglass.new 3 5 = some hg35 := by decide
  exact ⟨hnew, (C6_layout_symmetry 3 5 hg35 hnew).1 0 1 (by decide) (by decide)⟩
